import Mathlib

/-!
Verification of the MathPilot structured-LLM generation pipeline.

This file gives a shallow embedding, in Lean 4, of the parts of the
repository relevant to its specified properties:

* `mathpilot/utils/llm.py` — provider routing (`_get_provider`), the
  tenacity-decorated `call_llm` (3 attempts, retry on any exception),
  the per-provider call functions with their credential checks, and the
  tolerant JSON extraction `_parse_structured_response`;
* `mathpilot/generator/__init__.py` — `generate_step_code` (placeholder
  on failure), `generate_project_code` (filename-keyed artifact dict),
  `generate_main_file` (module map built by regex over filenames,
  declaration-order execution blocks), and `generate_requirements`.

Python strings are modelled as `List Char`; Python dicts as insertion
ordered association lists with overwrite-on-duplicate-key semantics;
`json.loads` as a fuel-indexed recursive-descent JSON parser; raised
exceptions as `Except` / explicitly tagged error values.
-/

namespace MathPilot

/-! ## Data model (mathpilot/planner/models.py, mathpilot/generator) -/

/-- Step types, `StepType` in `mathpilot/planner/models.py`. -/
inductive StepType where
  | setup
  | dataGeneration
  | dataLoading
  | preprocessing
  | coreLogic
  | training
  | inference
  | visualization
  | validation
deriving DecidableEq, Repr

/-- A single step of a plan, `WorkflowStep` in `mathpilot/planner/models.py`. -/
structure WorkflowStep where
  step_id : String
  title : String
  description : String
  step_type : StepType
  inputs : List String
  outputs : List String
  dependencies : List String
  code_prompt : String
deriving DecidableEq, Repr

/-- A full plan, `ImplementationPlan` in `mathpilot/planner/models.py`. -/
structure ImplementationPlan where
  paper_title : String
  algorithm_name : String
  summary : String
  steps : List WorkflowStep
deriving DecidableEq, Repr

/-- Generated code for one step, `CodeTemplate` in `mathpilot/generator/__init__.py`. -/
structure CodeTemplate where
  step_id : String
  filename : String
  code : String
  dependencies : List String
  description : String
deriving DecidableEq, Repr

/-! ## Character-list helpers modelling Python string primitives -/

/-- Python whitespace for `str.strip` (ASCII subset actually occurring here). -/
def isPyWs (c : Char) : Bool :=
  c = ' ' || c = '\t' || c = '\n' || c = '\x0d' || c = '\x0b' || c = '\x0c'

/-- Python `str.strip` from the left. -/
def lstrip (cs : List Char) : List Char := cs.dropWhile isPyWs

/-- Python `str.strip` from the right. -/
def rstrip (cs : List Char) : List Char := (cs.reverse.dropWhile isPyWs).reverse

/-- Python `str.strip`. -/
def pyStrip (cs : List Char) : List Char := rstrip (lstrip cs)

/-- Index of the first occurrence of substring `pat` (Python `str.find`,
returning `none` instead of `-1`). -/
def findSeq (pat : List Char) : List Char → Option Nat
  | [] => if pat.isEmpty then some 0 else none
  | c :: cs =>
    if pat.isPrefixOf (c :: cs) then some 0
    else (findSeq pat cs).map (· + 1)

/-- Python substring containment, `pat in s`. -/
def containsSeq (pat cs : List Char) : Bool := (findSeq pat cs).isSome

/-- Index of the first occurrence of a character (Python `str.find` on a
one-character needle). -/
def findChar (c : Char) : List Char → Option Nat
  | [] => none
  | d :: cs => if d = c then some 0 else (findChar c cs).map (· + 1)

/-- Index of the last occurrence of a character (Python `str.rfind`). -/
def rfindChar (c : Char) (cs : List Char) : Option Nat :=
  (findChar c cs.reverse).map (fun i => cs.length - 1 - i)

/-- Python `str.lower` (code-point map, ASCII case folding). -/
def pyLower (s : String) : String := String.mk (s.data.map Char.toLower)

/-- Lexicographic code-point comparison of character lists — the order
Python's `sorted` uses on strings. -/
def charListLe : List Char → List Char → Bool
  | [], _ => true
  | _ :: _, [] => false
  | a :: as, b :: bs =>
    if a.toNat < b.toNat then true
    else if b.toNat < a.toNat then false
    else charListLe as bs

/-- Lexicographic order on strings as a proposition. -/
def strLe (a b : String) : Prop := charListLe a.data b.data = true

instance : DecidableRel strLe := fun _ _ => instDecidableEqBool _ _

/-- Python `str.startswith` on a one-character needle. -/
def startsWithChar (c : Char) : List Char → Bool
  | [] => false
  | d :: _ => d = c

/-- Python `str.endswith` on a one-character needle. -/
def endsWithChar (c : Char) (cs : List Char) : Bool :=
  startsWithChar c cs.reverse

/-! ## Response cleaning (`_parse_structured_response`, mathpilot/utils/llm.py)

The Python code strips the text, cuts out the interior of a markdown fence
when one is present (preferring a fence tagged `json`), then trims
everything before the first `{` when the text does not start with `{`, and
everything after the last `}` when it does not end with `}`.  The brace
trimming is a naive first-`\x7b` / last-`\x7d` scan, not depth-balanced. -/

/-- The tagged fence opener searched for first, `"```json"`. -/
def fenceJsonTag : List Char := "```json".toList

/-- The plain fence marker, `"```"`. -/
def fenceTag : List Char := "```".toList

/-- First clean-up stage of `_parse_structured_response` (after the
strip): when a `"```json"` fence opener is present, cut out the text
between it and the next `"```"` (and strip it); failing that, do the
same for a plain `"```"` fence; otherwise keep the text. -/
def cutFences (t : List Char) : List Char :=
  match findSeq fenceJsonTag t with
  | some i =>
    match findSeq fenceTag (t.drop (i + 7)) with
    | some j => if 0 < j then pyStrip ((t.drop (i + 7)).take j) else t
    | none => t
  | none =>
    match findSeq fenceTag t with
    | some i =>
      match findSeq fenceTag (t.drop (i + 3)) with
      | some j => if 0 < j then pyStrip ((t.drop (i + 3)).take j) else t
      | none => t
    | none => t

/-- Second clean-up stage: when the text does not start with `\x7b` but
contains one, drop everything before the first `\x7b` (naive
`str.find`). -/
def trimToBrace (t : List Char) : List Char :=
  if !startsWithChar '\x7b' t && (findChar '\x7b' t).isSome then
    t.drop ((findChar '\x7b' t).getD 0)
  else t

/-- Third clean-up stage: when the text does not end with `\x7d` but
contains one, keep everything up to the last `\x7d` (naive
`str.rfind`). -/
def trimAfterBrace (t : List Char) : List Char :=
  if !endsWithChar '\x7d' t && (findChar '\x7d' t).isSome then
    t.take (((rfindChar '\x7d' t).getD 0) + 1)
  else t

/-- Faithful model of the text clean-up performed by
`_parse_structured_response` before `json.loads` is attempted: strip,
fence cut, head trim to the first `\x7b`, tail trim to the last `\x7d`,
in the source's order. -/
def cleanResponse (text : List Char) : List Char :=
  trimAfterBrace (trimToBrace (cutFences (pyStrip text)))

/-! ## JSON values and a model of `json.loads`

`json.loads` is the standard-library parser consumed by
`_parse_structured_response`; it is modelled as a fuel-indexed
recursive-descent parser over `List Char`.  Numbers are restricted to
integers (no artifact schema in the repository carries floating-point
fields) and `\u` escapes are not modelled. -/

/-- Parsed JSON values. -/
inductive Json where
  | null
  | bool (b : Bool)
  | num (n : Int)
  | str (s : String)
  | arr (items : List Json)
  | obj (fields : List (String × Json))
deriving Repr

/-- JSON insignificant whitespace. -/
def isJsonWs (c : Char) : Bool :=
  c = ' ' || c = '\t' || c = '\n' || c = '\x0d'

/-- Drop insignificant whitespace. -/
def skipJsonWs (cs : List Char) : List Char := cs.dropWhile isJsonWs

/-- Decode one escape character inside a JSON string literal. -/
def escChar (c : Char) : Option Char :=
  if c = '"' then some '"'
  else if c = '\\' then some '\\'
  else if c = '/' then some '/'
  else if c = 'n' then some '\n'
  else if c = 't' then some '\t'
  else if c = 'r' then some '\x0d'
  else if c = 'b' then some '\x08'
  else if c = 'f' then some '\x0c'
  else none

/-- Parse the body of a JSON string literal (after the opening quote),
returning the decoded characters and the input remaining after the
closing quote. -/
def parseStringBody : List Char → Option (List Char × List Char)
  | [] => none
  | '"' :: rest => some ([], rest)
  | '\\' :: rest =>
    match rest with
    | [] => none
    | e :: rest' =>
      match escChar e with
      | some c => (parseStringBody rest').map (fun p => (c :: p.1, p.2))
      | none => none
  | c :: rest =>
    if c = '\\' || c = '"' then none
    else (parseStringBody rest).map (fun p => (c :: p.1, p.2))

/-- Parse a nonempty run of decimal digits into a natural number. -/
def parseNatTail (cs : List Char) : Option (Nat × List Char) :=
  let digits := cs.takeWhile Char.isDigit
  if digits.isEmpty then none
  else some (digits.foldl (fun a c => a * 10 + (c.toNat - 48)) 0, cs.drop digits.length)

mutual

/-- Fuel-indexed parser for one JSON value; returns the value and the
unconsumed remainder. -/
def parseVal : Nat → List Char → Option (Json × List Char)
  | 0, _ => none
  | fuel + 1, cs =>
    match skipJsonWs cs with
    | '\x7b' :: rest => parseObjStart fuel rest
    | '[' :: rest => parseArrStart fuel rest
    | '"' :: rest => (parseStringBody rest).map (fun p => (Json.str (String.mk p.1), p.2))
    | 't' :: 'r' :: 'u' :: 'e' :: r => some (Json.bool true, r)
    | 'f' :: 'a' :: 'l' :: 's' :: 'e' :: r => some (Json.bool false, r)
    | 'n' :: 'u' :: 'l' :: 'l' :: r => some (Json.null, r)
    | '-' :: r => (parseNatTail r).map (fun p => (Json.num (-(p.1 : Int)), p.2))
    | c :: r =>
      if c.isDigit then (parseNatTail (c :: r)).map (fun p => (Json.num (p.1 : Int), p.2))
      else none
    | [] => none

/-- Parse an object body right after the opening brace. -/
def parseObjStart : Nat → List Char → Option (Json × List Char)
  | 0, _ => none
  | fuel + 1, cs =>
    match skipJsonWs cs with
    | '\x7d' :: rest => some (Json.obj [], rest)
    | cs' => parseFields fuel cs' []

/-- Parse the fields of an object, accumulating parsed pairs; positioned
at a key string. -/
def parseFields : Nat → List Char → List (String × Json) → Option (Json × List Char)
  | 0, _, _ => none
  | fuel + 1, cs, acc =>
    match skipJsonWs cs with
    | '"' :: rest =>
      match parseStringBody rest with
      | none => none
      | some (key, r1) =>
        match skipJsonWs r1 with
        | ':' :: r2 =>
          match parseVal fuel r2 with
          | none => none
          | some (v, r3) =>
            match skipJsonWs r3 with
            | ',' :: r4 => parseFields fuel r4 (acc ++ [(String.mk key, v)])
            | '\x7d' :: r4 => some (Json.obj (acc ++ [(String.mk key, v)]), r4)
            | _ => none
        | _ => none
    | _ => none

/-- Parse an array body right after the opening bracket. -/
def parseArrStart : Nat → List Char → Option (Json × List Char)
  | 0, _ => none
  | fuel + 1, cs =>
    match skipJsonWs cs with
    | ']' :: rest => some (Json.arr [], rest)
    | cs' => parseItems fuel cs' []

/-- Parse the items of an array, accumulating parsed values. -/
def parseItems : Nat → List Char → List Json → Option (Json × List Char)
  | 0, _, _ => none
  | fuel + 1, cs, acc =>
    match parseVal fuel cs with
    | none => none
    | some (v, r1) =>
      match skipJsonWs r1 with
      | ',' :: r2 => parseItems fuel r2 (acc ++ [v])
      | ']' :: r2 => some (Json.arr (acc ++ [v]), r2)
      | _ => none

end

/-- Model of `json.loads`: parse a complete JSON document, rejecting
trailing garbage (Python raises `JSONDecodeError: Extra data`). -/
def parseJson (cs : List Char) : Option Json :=
  match parseVal (cs.length + 1) cs with
  | some (v, rest) => if (skipJsonWs rest).isEmpty then some v else none
  | none => none

/-! ## Schema validation (pydantic `model_validate` for `CodeTemplate`) -/

/-- Dictionary lookup on parsed object fields.  Python's `json.loads`
builds a dict in which a repeated key keeps the last value. -/
def jLookup (fields : List (String × Json)) (k : String) : Option Json :=
  (fields.reverse.find? (fun p => p.1 = k)).map (·.2)

/-- Coerce a JSON value to a string field. -/
def asStr : Json → Option String
  | .str s => some s
  | _ => none

/-- Coerce a JSON value to a list-of-strings field. -/
def asStrList : Json → Option (List String)
  | .arr xs => xs.mapM asStr
  | _ => none

/-- Model of `CodeTemplate.model_validate`: `step_id`, `filename` and
`code` are required string fields; `dependencies` defaults to `[]` and
`description` to `""`; extra keys are ignored. -/
def validateCodeTemplate (j : Json) : Option CodeTemplate :=
  match j with
  | .obj fields => do
    let sid ← jLookup fields "step_id" >>= asStr
    let fn ← jLookup fields "filename" >>= asStr
    let code ← jLookup fields "code" >>= asStr
    let deps ←
      match jLookup fields "dependencies" with
      | none => some []
      | some v => asStrList v
    let desc ←
      match jLookup fields "description" with
      | none => some ""
      | some v => asStr v
    some ⟨sid, fn, code, deps, desc⟩
  | _ => none

/-- Error kinds raised by `_parse_structured_response` (both surface as
`ValueError` in Python; the two raise sites are distinguishable by
message: "Invalid JSON from LLM" vs "Response doesn't match schema"). -/
inductive ExtractError where
  | parseError (offending : List Char)
  | validationError
deriving DecidableEq, Repr

/-- Model of `_parse_structured_response text schema`: clean the text,
parse it as JSON, then validate against the schema. -/
def parseStructuredResponse {α : Type} (validate : Json → Option α)
    (text : List Char) : Except ExtractError α :=
  match parseJson (cleanResponse text) with
  | none => .error (.parseError text)
  | some j =>
    match validate j with
    | some a => .ok a
    | none => .error .validationError

/-- The JSON-recovery part of `_parse_structured_response` alone: clean
the text and run `json.loads` on it. -/
def extractJson (text : List Char) : Option Json :=
  parseJson (cleanResponse text)

/-- The markdown-fenced encoding of a JSON payload text, as produced by
a model following `_get_json_instruction`. -/
def fenceEncode (payload : List Char) : List Char :=
  fenceJsonTag ++ '\n' :: (payload ++ '\n' :: fenceTag)

/-- A prose-surrounded encoding of a JSON payload text. -/
def proseEncode (pre payload post : List Char) : List Char :=
  pre ++ payload ++ post

/-! ## Provider routing and the retrying call (`mathpilot/utils/llm.py`) -/

/-- Resolved configuration values consulted by the LLM layer
(`mathpilot/utils/config.py` and environment fallbacks folded in). -/
structure Config where
  llm_provider : String
  llm_model : String
  gemini_api_key : Option String
  anthropic_api_key : Option String
  groq_api_key : Option String
deriving DecidableEq, Repr

/-- Model names whose substring presence routes to the groq provider. -/
def groqNames : List String := ["kimi", "llama", "mixtral", "gemma", "moonshotai"]

/-- Model of `_get_provider`: prefix match for gemini/claude, substring
match for the groq family, otherwise the configured default provider. -/
def getProvider (cfg : Config) (model : String) : String :=
  if "gemini".toList.isPrefixOf model.toList then "gemini"
  else if "claude".toList.isPrefixOf model.toList then "anthropic"
  else if groqNames.any (fun n => containsSeq n.toList model.toList) then "groq"
  else cfg.llm_provider

/-- Errors raised inside one attempt of the `call_llm` body.  Python
raises all of these as `ValueError`; the constructors tag the distinct
raise sites. -/
inductive CallError where
  | configError (msg : String)
  | providerError (msg : String)
  | malformed (e : ExtractError)
deriving DecidableEq, Repr

/-- Model of `_call_gemini_api`: a missing credential raises before the
network is touched; an empty response text raises afterwards.  `net` is
the outcome of the underlying `generate_content` network call. -/
def callGeminiApi (cfg : Config) (net : Except String String) : Except CallError String :=
  match cfg.gemini_api_key with
  | none => .error (.configError "GEMINI_API_KEY not configured.")
  | some _ =>
    match net with
    | .error e => .error (.providerError e)
    | .ok t => if t = "" then .error (.providerError "Empty response from Gemini") else .ok t

/-- Model of `_call_anthropic_api` (config key and env-var fallback are
folded into the single `anthropic_api_key` option). -/
def callAnthropicApi (cfg : Config) (net : Except String String) : Except CallError String :=
  match cfg.anthropic_api_key with
  | none => .error (.configError "ANTHROPIC_API_KEY (or CLAUDE_API_KEY) not configured.")
  | some _ =>
    match net with
    | .error e => .error (.providerError e)
    | .ok t => if t = "" then .error (.providerError "Empty response from Claude") else .ok t

/-- Model of `_call_groq_api` (config key and env-var fallback folded
into the single `groq_api_key` option; the several invalid-response
checks collapse to the empty-content check). -/
def callGroqApi (cfg : Config) (net : Except String String) : Except CallError String :=
  match cfg.groq_api_key with
  | none => .error (.configError "GROQ_API_KEY not configured.")
  | some _ =>
    match net with
    | .error e => .error (.providerError ("Groq API call failed: " ++ e))
    | .ok t =>
      if t = "" then .error (.providerError "Received empty content from Groq (possibly tool calls instead of text)")
      else .ok t

/-- One attempt of the (undecorated) `call_llm` body with a schema:
resolve the model, dispatch on the provider, then run the structured
extraction on the returned text.  `net i` is the network outcome seen by
attempt number `i` (0-based). -/
def callLLMAttempt {α : Type} (cfg : Config) (modelArg : Option String)
    (net : Nat → Except String String) (validate : Json → Option α)
    (i : Nat) : Except CallError α :=
  let model := modelArg.getD cfg.llm_model
  let provider := getProvider cfg model
  let raw : Except CallError String :=
    if provider = "gemini" then callGeminiApi cfg (net i)
    else if provider = "anthropic" then callAnthropicApi cfg (net i)
    else if provider = "groq" then callGroqApi cfg (net i)
    else .error (.providerError ("Unknown LLM provider for model: " ++ model))
  match raw with
  | .error e => .error e
  | .ok text =>
    match parseStructuredResponse validate text.toList with
    | .ok a => .ok a
    | .error e => .error (.malformed e)

/-- Outcome of a tenacity-decorated call: either the success value with
the number of attempts consumed, or retry exhaustion (tenacity's
`RetryError`, wrapping the last attempt's error) with the number of
attempts consumed. -/
inductive RetryResult (ε α : Type) where
  | success (a : α) (attempts : Nat)
  | exhausted (last : Option ε) (attempts : Nat)
deriving DecidableEq, Repr

/-- Model of the tenacity `@retry(stop=stop_after_attempt(N), ...)` loop:
run attempt `i`; on failure, retry while budget remains, and raise a
wrapped `RetryError` after the final failed attempt.  Every raised
exception is retried (`retry_if_exception_type(Exception)`). -/
def runRetry {ε α : Type} (f : Nat → Except ε α) : Nat → Nat → RetryResult ε α
  | i, 0 => .exhausted none i
  | i, budget + 1 =>
    match f i with
    | .ok a => .success a (i + 1)
    | .error e => if budget = 0 then .exhausted (some e) (i + 1) else runRetry f (i + 1) budget

/-- The attempt budget of the decorator on `call_llm`:
`stop_after_attempt(3)`. -/
def retryAttempts : Nat := 3

/-- Model of the decorated `call_llm` with a schema argument. -/
def callLLM {α : Type} (cfg : Config) (modelArg : Option String)
    (net : Nat → Except String String) (validate : Json → Option α) :
    RetryResult CallError α :=
  runRetry (callLLMAttempt cfg modelArg net validate) 0 retryAttempts

/-! ## Step code generation (`generate_step_code`) -/

/-- Message text of the caught exception embedded in a placeholder
(Python interpolates `str(e)` of the tenacity `RetryError`). -/
def callErrorMsg : CallError → String
  | .configError m => m
  | .providerError m => m
  | .malformed (.parseError _) => "Invalid JSON from LLM"
  | .malformed .validationError => "Response doesn't match schema"

/-- Rendering of the exception caught by `generate_step_code` after
retry exhaustion. -/
def retryErrorMsg : Option CallError → String
  | some e => "RetryError: " ++ callErrorMsg e
  | none => "RetryError"

/-- The placeholder artifact `generate_step_code` builds when the LLM
call fails: error-marked filename, comment-only code, no declared
dependencies. -/
def errorPlaceholder (step : WorkflowStep) (e : Option CallError) : CodeTemplate :=
  { step_id := step.step_id
    filename := step.step_id ++ "_error.py"
    code := "# Error generating code: " ++ retryErrorMsg e ++ "\n# Please implement manually."
    dependencies := []
    description := "Generation failed" }

/-- Model of `generate_step_code`: invoke the decorated `call_llm` with
the `CodeTemplate` schema; on success force the returned artifact's
`step_id` to the input step's id; on any exception return the
placeholder artifact instead of raising. -/
def generateStepCode (cfg : Config) (modelArg : Option String)
    (net : Nat → Except String String) (step : WorkflowStep) : CodeTemplate :=
  match callLLM cfg modelArg net validateCodeTemplate with
  | .success t _ => { t with step_id := step.step_id }
  | .exhausted e _ => errorPlaceholder step e

/-! ## Python dict model

`generate_project_code` and `generate_main_file` use `dict[str, ...]`;
modelled as insertion-ordered association lists where writing an existing
key overwrites its value in place. -/

/-- Python `d[k] = v`. -/
def dictInsert {β : Type} (d : List (String × β)) (k : String) (v : β) : List (String × β) :=
  if d.any (fun p => p.1 = k) then d.map (fun p => if p.1 = k then (k, v) else p)
  else d ++ [(k, v)]

/-- Python `d.get(k)` / `k in d`. -/
def dictGet {β : Type} (d : List (String × β)) (k : String) : Option β :=
  (d.find? (fun p => p.1 = k)).map (·.2)

/-! ## Entry-point assembly (`generate_main_file`) -/

/-- Python `filename.replace(".py", "")` — removes every (non
overlapping, left-to-right) occurrence of `".py"`. -/
def stripPy : List Char → List Char
  | '.' :: 'p' :: 'y' :: rest => stripPy rest
  | c :: rest => c :: stripPy rest
  | [] => []

/-- Model of `re.match(r"(step_\d+)", filename_base)`: an anchored match
of the literal `step_` followed by a maximal nonempty digit run,
returning the matched group. -/
def matchStepId (cs : List Char) : Option String :=
  if "step_".toList.isPrefixOf cs then
    let ds := (cs.drop 5).takeWhile Char.isDigit
    if ds.isEmpty then none else some (String.mk ("step_".toList ++ ds))
  else none

/-- The `step_modules` dict of `generate_main_file`: for every template
whose `step_id` is not `"main"`, strip `.py` from the filename and, when
the base matches `step_<digits>`, map that matched id to the base.  The
artifact's own `step_id` field is not consulted for the association. -/
def buildStepModules (templates : List (String × CodeTemplate)) : List (String × String) :=
  templates.foldl
    (fun m p =>
      if p.2.step_id = "main" then m
      else
        let base := stripPy p.2.filename.toList
        match matchStepId base with
        | some sid => dictInsert m sid (String.mk base)
        | none => m)
    []

/-- The import lines of the generated `main.py`: three fixed imports,
then one `import <module>` per plan step (in declaration order) that has
an entry in `step_modules`. -/
def mainImports (plan : ImplementationPlan) (templates : List (String × CodeTemplate)) :
    List String :=
  let m := buildStepModules templates
  ["import sys", "import time", "from pathlib import Path"] ++
    plan.steps.filterMap (fun s => (dictGet m s.step_id).map (fun mod => "import " ++ mod))

/-- The steps for which `generate_main_file` emits an execution block,
in the order the blocks are emitted: the plan's declaration order,
skipping (with a warning) steps absent from `step_modules`. -/
def executedSteps (plan : ImplementationPlan) (templates : List (String × CodeTemplate)) :
    List WorkflowStep :=
  let m := buildStepModules templates
  plan.steps.filter (fun s => (dictGet m s.step_id).isSome)

/-- The execution order emitted into `main.py`: the ids of the executed
steps in block order. -/
def executionOrder (plan : ImplementationPlan) (templates : List (String × CodeTemplate)) :
    List String :=
  (executedSteps plan templates).map (·.step_id)

/-- The lines of one step's execution block in the generated `main.py`. -/
def stepBlockLines (s : WorkflowStep) : List String :=
  ["    # Step: " ++ s.title,
   "    print(\"[" ++ s.step_id ++ "] " ++ s.title ++ "...\")",
   "    step_start = time.time()",
   "    try:",
   "        # Import and call the step module",
   "        result = None  # Step " ++ s.step_id ++ " result",
   "        results[\"" ++ s.step_id ++ "\"] = result",
   "        elapsed = time.time() - step_start",
   "        print(f\"✓ " ++ s.title ++ " completed in \x7belapsed:.2f\x7ds\")",
   "    except Exception as e:",
   "        print(f\"✗ " ++ s.title ++ " failed: \x7be\x7d\")",
   "        raise",
   "    print()"]

/-- The body lines of the generated `main.py` (the `main_lines` list of
`generate_main_file`). -/
def mainBodyLines (plan : ImplementationPlan) (templates : List (String × CodeTemplate)) :
    List String :=
  ["def main():",
   "    \"\"\"Execute the complete algorithm workflow.\"\"\"",
   "    print(\"=\" * 60)",
   "    print(\"Executing: " ++ plan.algorithm_name ++ "\")",
   "    print(\"Paper: " ++ plan.paper_title ++ "\")",
   "    print(\"=\" * 60)",
   "    print()",
   "    ",
   "    results = \x7b\x7d",
   "    total_start = time.time()",
   "    "] ++
  (executedSteps plan templates).flatMap stepBlockLines ++
  ["    total_elapsed = time.time() - total_start",
   "    print(\"=\" * 60)",
   "    print(f\"Total execution time: \x7btotal_elapsed:.2f\x7ds\")",
   "    print(\"✓ Workflow completed successfully!\")",
   "    print(\"=\" * 60)",
   "    ",
   "    return results",
   "",
   "",
   "if __name__ == \"__main__\":",
   "    try:",
   "        results = main()",
   "    except Exception as e:",
   "        print(f\"\\nWorkflow failed: \x7be\x7d\", file=sys.stderr)",
   "        sys.exit(1)"]

/-- Model of `generate_main_file`: the synthetic orchestrator artifact
with `step_id = "main"` and `filename = "main.py"`. -/
def generateMainFile (plan : ImplementationPlan) (templates : List (String × CodeTemplate)) :
    CodeTemplate :=
  { step_id := "main"
    filename := "main.py"
    code := String.intercalate "\n" (mainImports plan templates) ++ "\n\n" ++
      String.intercalate "\n" (mainBodyLines plan templates)
    dependencies := []
    description := "Main orchestration file that chains all workflow steps" }

/-! ## Project-level generation (`generate_project_code`) -/

/-- Model of `generate_project_code` with the per-step generation
outcome abstracted as `gen` (in the source, `generate_step_code step
context`): each step's artifact is written into a dict keyed by its
`filename`, then the synthetic main artifact is written under its own
filename. -/
def generateProjectCode (plan : ImplementationPlan) (gen : WorkflowStep → CodeTemplate) :
    List (String × CodeTemplate) :=
  let templates := plan.steps.foldl (fun d step => dictInsert d (gen step).filename (gen step)) []
  let mainT := generateMainFile plan templates
  dictInsert templates mainT.filename mainT

/-- `generate_project_code` with the per-step generation instantiated to
the real `generate_step_code` pipeline (`net s` is the network
environment seen by step `s`). -/
def generateProjectCodeLLM (cfg : Config) (modelArg : Option String)
    (net : WorkflowStep → Nat → Except String String) (plan : ImplementationPlan) :
    List (String × CodeTemplate) :=
  generateProjectCode plan (fun s => generateStepCode cfg modelArg (net s) s)

/-! ## Requirements aggregation (`generate_requirements`) -/

/-- The fixed standard-library exclusion set. -/
def stdLibs : List String :=
  ["os", "sys", "re", "json", "math", "random", "datetime", "time", "pathlib",
   "typing", "collections", "itertools", "functools", "abc", "copy", "shutil"]

/-- The lower-cased declared dependencies of all templates, with
standard-library names excluded (the elements added to the Python set). -/
def collectDeps (templates : List CodeTemplate) : List String :=
  (templates.flatMap (fun t => t.dependencies.map pyLower)).filter
    (fun d => !stdLibs.contains d)

/-- Model of `generate_requirements`: the dependency set (Python `set`,
modelled by deduplication) sorted lexicographically — extensionally the
sorted list of the distinct collected names, exactly `sorted(set(...))`. -/
def generateRequirements (templates : List CodeTemplate) : List String :=
  ((collectDeps templates).dedup).insertionSort strLe

/-- The returned `requirements.txt` content: the sorted names joined by
newlines. -/
def generateRequirementsText (templates : List CodeTemplate) : String :=
  String.intercalate "\n" (generateRequirements templates)

/-! ## Concrete instances used by counterexamples and witnesses -/

/-- A configuration routing to gemini with the gemini credential missing. -/
def cfgNoGeminiKey : Config :=
  { llm_provider := "gemini"
    llm_model := "gemini-2.5-pro"
    gemini_api_key := none
    anthropic_api_key := some "k"
    groq_api_key := some "k" }

/-- A configuration routing to gemini with the credential present. -/
def cfgGemini : Config :=
  { llm_provider := "gemini"
    llm_model := "gemini-2.5-pro"
    gemini_api_key := some "k"
    anthropic_api_key := none
    groq_api_key := none }

/-- A network environment that always answers with a fixed text. -/
def netConst (t : String) : Nat → Except String String := fun _ => Except.ok t

/-- A network environment that always fails. -/
def netDown : Nat → Except String String := fun _ => Except.error "Connection refused"

/-- A workflow step with the given id and dependency list (other fields
fixed). -/
def mkStep (sid : String) (deps : List String) : WorkflowStep :=
  { step_id := sid
    title := "Step " ++ sid
    description := "d"
    step_type := StepType.setup
    inputs := []
    outputs := []
    dependencies := deps
    code_prompt := "p" }

/-- A step artifact with the given id, filename and dependencies. -/
def mkTemplate (sid fn : String) (deps : List String) : CodeTemplate :=
  { step_id := sid, filename := fn, code := "pass", dependencies := deps, description := "" }

/-- A two-step plan whose first declared step depends on the second:
declaration order is not a topological order of the dependency graph. -/
def planOutOfOrder : ImplementationPlan :=
  { paper_title := "P", algorithm_name := "A", summary := "S"
    steps := [mkStep "step_01" ["step_02"], mkStep "step_02" []] }

/-- A two-step plan with a 2-cycle of dependencies. -/
def planCycle : ImplementationPlan :=
  { paper_title := "P", algorithm_name := "A", summary := "S"
    steps := [mkStep "step_01" ["step_02"], mkStep "step_02" ["step_01"]] }

/-- A one-step plan whose step depends on a nonexistent id. -/
def planUnknownDep : ImplementationPlan :=
  { paper_title := "P", algorithm_name := "A", summary := "S"
    steps := [mkStep "step_01" ["step_99"]] }

/-- Artifacts for the two steps of the two-step plans. -/
def tmplsTwoSteps : List (String × CodeTemplate) :=
  [("step_01_a.py", mkTemplate "step_01" "step_01_a.py" []),
   ("step_02_b.py", mkTemplate "step_02" "step_02_b.py" [])]

/-- A three-step chain plan (`step_01 ← step_02 ← step_03`). -/
def planChain : ImplementationPlan :=
  { paper_title := "P", algorithm_name := "A", summary := "S"
    steps := [mkStep "step_01" [], mkStep "step_02" ["step_01"], mkStep "step_03" ["step_02"]] }

/-- Artifact set in which `step_02`'s generation failed after exhausting
retries (its artifact is the error placeholder produced by
`generate_step_code`) while `step_01` and `step_03` succeeded. -/
def tmplsChainFailed : List (String × CodeTemplate) :=
  [("step_01_setup.py", mkTemplate "step_01" "step_01_setup.py" ["numpy"]),
   ("step_02_error.py", errorPlaceholder (mkStep "step_02" ["step_01"]) (some (.providerError "Connection refused"))),
   ("step_03_viz.py", mkTemplate "step_03" "step_03_viz.py" ["matplotlib"])]

/-- A two-step plan with no dependencies. -/
def planTwo : ImplementationPlan :=
  { paper_title := "P", algorithm_name := "A", summary := "S"
    steps := [mkStep "step_01" [], mkStep "step_02" []] }

/-- A one-step plan whose artifact's filename does not encode the step id. -/
def planPlainName : ImplementationPlan :=
  { paper_title := "P", algorithm_name := "A", summary := "S"
    steps := [mkStep "step_01" []] }

/-- An artifact that declares `step_id = "step_01"` but carries a
filename that does not encode the step id. -/
def tmplsPlainName : List (String × CodeTemplate) :=
  [("loader.py", mkTemplate "step_01" "loader.py" [])]

/-! ## Basic lemmas about the retry loop -/

/-- Unfolding lemma for one step of the retry loop. -/
theorem runRetry_succ {ε α : Type} (f : Nat → Except ε α) (i b : Nat) :
    runRetry f i (b + 1) =
      match f i with
      | .ok a => RetryResult.success a (i + 1)
      | .error e => if b = 0 then RetryResult.exhausted (some e) (i + 1) else runRetry f (i + 1) b :=
  rfl

/-- C7: the retrying invoker returns the success value when the adapter
fails `k < 3` times and then succeeds (consuming `k + 1` attempts), and
after an adapter that always fails it stops at exactly 3 attempts with a
wrapped retry-exhaustion outcome carrying the last error — an outcome
distinguishable from a plain first-attempt failure. -/
theorem retryingInvoker_semantics :
    (∀ {ε α : Type} (f : Nat → Except ε α) (k : Nat) (a : α),
      k < retryAttempts →
      (∀ i, i < k → ∃ e, f i = Except.error e) →
      f k = Except.ok a →
      runRetry f 0 retryAttempts = RetryResult.success a (k + 1)) ∧
    (∀ {ε α : Type} (f : Nat → Except ε α) (err : Nat → ε),
      (∀ i, f i = Except.error (err i)) →
      runRetry f 0 retryAttempts = RetryResult.exhausted (some (err 2)) retryAttempts) := by
  constructor
  · intro ε α f k a hk hfail hok
    simp only [retryAttempts] at hk ⊢
    interval_cases k
    · rw [show (3 : Nat) = 2 + 1 from rfl, runRetry_succ, hok]
    · obtain ⟨e0, h0⟩ := hfail 0 (by omega)
      rw [show (3 : Nat) = 2 + 1 from rfl, runRetry_succ, h0]
      simp only [show (2 : Nat) ≠ 0 by omega, if_false]
      rw [show (2 : Nat) = 1 + 1 from rfl, runRetry_succ, hok]
    · obtain ⟨e0, h0⟩ := hfail 0 (by omega)
      obtain ⟨e1, h1⟩ := hfail 1 (by omega)
      rw [show (3 : Nat) = 2 + 1 from rfl, runRetry_succ, h0]
      simp only [show (2 : Nat) ≠ 0 by omega, if_false]
      rw [show (2 : Nat) = 1 + 1 from rfl, runRetry_succ, h1]
      simp only [show (1 : Nat) ≠ 0 by omega, if_false]
      rw [show (1 : Nat) = 0 + 1 from rfl, runRetry_succ, hok]
  · intro ε α f err h
    rw [show retryAttempts = 2 + 1 from rfl, runRetry_succ, h 0]
    simp only [show (2 : Nat) ≠ 0 by omega, if_false]
    rw [show (2 : Nat) = 1 + 1 from rfl, runRetry_succ, h 1]
    simp only [show (1 : Nat) ≠ 0 by omega, if_false]
    rw [show (1 : Nat) = 0 + 1 from rfl, runRetry_succ, h 2]
    rfl

/-- Witness for C7: a concrete adapter failing twice then succeeding
returns the success value after 3 attempts; a concrete always-failing
adapter exhausts at exactly 3 attempts with the wrapped last error. -/
theorem retryingInvoker_semantics_witness :
    runRetry (fun i => if i < 2 then Except.error "transient" else Except.ok "done") 0 retryAttempts
        = RetryResult.success "done" 3 ∧
    runRetry (fun _ => (Except.error "down" : Except String String)) 0 retryAttempts
        = RetryResult.exhausted (some "down") retryAttempts := by
  constructor
  · exact retryingInvoker_semantics.1 _ 2 "done" (by decide)
      (fun i hi => ⟨"transient", by simp [hi]⟩) (by simp)
  · exact retryingInvoker_semantics.2 _ (fun _ => "down") (fun _ => rfl)

/-- C6: for every configuration, network environment and step,
`generate_step_code` returns (never raises); the returned artifact's
`step_id` always equals the input step's id; and whenever the underlying
decorated LLM call ends in retry exhaustion (any exception), the result
is exactly the placeholder artifact — error-marked filename derived from
the step id, comment-only code documenting the failure, and empty
declared dependencies. -/
theorem generateStepCode_placeholder_and_id :
    ∀ (cfg : Config) (modelArg : Option String) (net : Nat → Except String String)
      (step : WorkflowStep),
      (generateStepCode cfg modelArg net step).step_id = step.step_id ∧
      (∀ (e : Option CallError) (n : Nat),
        callLLM cfg modelArg net validateCodeTemplate = RetryResult.exhausted e n →
        generateStepCode cfg modelArg net step =
          { step_id := step.step_id
            filename := step.step_id ++ "_error.py"
            code := "# Error generating code: " ++ retryErrorMsg e ++ "\n# Please implement manually."
            dependencies := []
            description := "Generation failed" }) := by
  intro cfg modelArg net step
  constructor
  · cases h : callLLM cfg modelArg net validateCodeTemplate with
    | success t n => simp [generateStepCode, h]
    | exhausted e n => simp [generateStepCode, h, errorPlaceholder]
  · intro e n h
    simp [generateStepCode, h, errorPlaceholder]

/-- Witness for C6 at a concrete failing configuration (missing gemini
credential) and a concrete step. -/
theorem generateStepCode_placeholder_and_id_witness :
    (generateStepCode cfgNoGeminiKey none (netConst "x") (mkStep "step_02" [])).step_id
        = "step_02" ∧
    generateStepCode cfgNoGeminiKey none (netConst "x") (mkStep "step_02" []) =
      { step_id := "step_02"
        filename := "step_02" ++ "_error.py"
        code := "# Error generating code: " ++
          retryErrorMsg (some (.configError "GEMINI_API_KEY not configured.")) ++
          "\n# Please implement manually."
        dependencies := []
        description := "Generation failed" } := by
  constructor
  · exact (generateStepCode_placeholder_and_id cfgNoGeminiKey none (netConst "x")
      (mkStep "step_02" [])).1
  · exact (generateStepCode_placeholder_and_id cfgNoGeminiKey none (netConst "x")
      (mkStep "step_02" [])).2
      (some (.configError "GEMINI_API_KEY not configured.")) 3 (by decide)

/-- C2 counterexample: with the gemini credential missing, the decorated
`call_llm` does not fail on the first attempt — the configuration error
is retried like any other exception and consumes the entire 3-attempt
budget before surfacing as retry exhaustion. -/
theorem callLLM_missing_credential_retried :
    callLLM cfgNoGeminiKey none (netConst "x") validateCodeTemplate =
      RetryResult.exhausted (some (.configError "GEMINI_API_KEY not configured.")) 3 := by
  decide

/-- C2 amended: the retry decorator on `call_llm` retries on every
exception (`retry_if_exception_type(Exception)`), so an
authentication/configuration error such as a missing gemini credential
consumes the full 3-attempt retry budget — it is not distinguished from
transient failures. -/
theorem configError_consumes_retry_budget :
    ∀ (cfg : Config) (modelArg : Option String) (net : Nat → Except String String),
      cfg.gemini_api_key = none →
      getProvider cfg (modelArg.getD cfg.llm_model) = "gemini" →
      callLLM cfg modelArg net validateCodeTemplate =
        RetryResult.exhausted (some (.configError "GEMINI_API_KEY not configured.")) 3 := by
  intro cfg modelArg net hkey hprov
  have hatt : ∀ i, callLLMAttempt cfg modelArg net validateCodeTemplate i =
      Except.error (.configError "GEMINI_API_KEY not configured.") := by
    intro i
    simp [callLLMAttempt, hprov, callGeminiApi, hkey]
  show runRetry (callLLMAttempt cfg modelArg net validateCodeTemplate) 0 retryAttempts = _
  rw [show retryAttempts = 2 + 1 from rfl, runRetry_succ, hatt 0]
  simp only [show (2 : Nat) ≠ 0 by omega, if_false]
  rw [show (2 : Nat) = 1 + 1 from rfl, runRetry_succ, hatt 1]
  simp only [show (1 : Nat) ≠ 0 by omega, if_false]
  rw [show (1 : Nat) = 0 + 1 from rfl, runRetry_succ, hatt 2]
  rfl

/-- Witness for the amended C2 at the concrete credential-less
configuration. -/
theorem configError_consumes_retry_budget_witness :
    callLLM cfgNoGeminiKey (none : Option String) (netConst "x") validateCodeTemplate =
      RetryResult.exhausted (some (.configError "GEMINI_API_KEY not configured.")) 3 :=
  configError_consumes_retry_budget cfgNoGeminiKey none (netConst "x") rfl (by decide)

/-- C8: whenever the extraction heuristics recover no syntactically
valid JSON from the (cleaned) text, `_parse_structured_response` fails
with the parse-kind error carrying the offending text and never returns
a value; whenever the recovered JSON does not conform to the target
schema, it fails with the validation-kind error and never returns a
value. -/
theorem parseStructuredResponse_error_kinds :
    ∀ {α : Type} (V : Json → Option α) (text : List Char),
      (parseJson (cleanResponse text) = none →
        parseStructuredResponse V text = Except.error (ExtractError.parseError text) ∧
        ∀ a, parseStructuredResponse V text ≠ Except.ok a) ∧
      (∀ j, parseJson (cleanResponse text) = some j → V j = none →
        parseStructuredResponse V text = Except.error ExtractError.validationError ∧
        ∀ a, parseStructuredResponse V text ≠ Except.ok a) := by
  intro α V text
  constructor
  · intro h
    constructor
    · simp [parseStructuredResponse, h]
    · intro a
      simp [parseStructuredResponse, h]
  · intro j hj hv
    constructor
    · simp [parseStructuredResponse, hj, hv]
    · intro a
      simp [parseStructuredResponse, hj, hv]

/-- Witness for C8: a JSON-free text fails with the parse-kind error; a
syntactically valid object that does not match the `CodeTemplate`
schema fails with the validation-kind error. -/
theorem parseStructuredResponse_error_kinds_witness :
    parseStructuredResponse validateCodeTemplate "This is just plain text with no JSON".toList =
      Except.error (ExtractError.parseError "This is just plain text with no JSON".toList) ∧
    parseStructuredResponse validateCodeTemplate "\x7b\"a\": 1\x7d".toList =
      Except.error ExtractError.validationError := by
  constructor
  · exact ((parseStructuredResponse_error_kinds validateCodeTemplate _).1 (by rfl)).1
  · exact ((parseStructuredResponse_error_kinds validateCodeTemplate _).2
      (Json.obj [("a", Json.num 1)]) (by rfl) (by rfl)).1

/-! ## Order lemmas for the lexicographic string order -/

/-- Reflexivity-like base fact: the empty list is below everything. -/
theorem charListLe_nil (l : List Char) : charListLe [] l = true := by
  cases l <;> rfl

/-- Nothing nonempty is below the empty list. -/
theorem charListLe_cons_nil (c : Char) (l : List Char) : charListLe (c :: l) [] = false := rfl

/-- Transitivity of the lexicographic comparison. -/
theorem charListLe_trans :
    ∀ {l1 l2 l3 : List Char}, charListLe l1 l2 = true → charListLe l2 l3 = true →
      charListLe l1 l3 = true := by
  intro l1
  induction l1 with
  | nil => intro l2 l3 _ _; exact charListLe_nil l3
  | cons a as ih =>
    intro l2 l3 hab hbc
    cases l2 with
    | nil => simp [charListLe_cons_nil] at hab
    | cons b bs =>
      cases l3 with
      | nil => simp [charListLe_cons_nil] at hbc
      | cons c cs =>
        rcases Nat.lt_trichotomy a.toNat b.toNat with h1 | h1 | h1
        · rcases Nat.lt_trichotomy b.toNat c.toNat with h2 | h2 | h2
          · simp [charListLe, show a.toNat < c.toNat by omega]
          · simp [charListLe, show a.toNat < c.toNat by omega]
          · simp [charListLe, show ¬ b.toNat < c.toNat by omega, h2] at hbc
        · have hab' : charListLe as bs = true := by
            simpa [charListLe, show ¬ a.toNat < b.toNat by omega,
              show ¬ b.toNat < a.toNat by omega] using hab
          rcases Nat.lt_trichotomy b.toNat c.toNat with h2 | h2 | h2
          · simp [charListLe, show a.toNat < c.toNat by omega]
          · have hbc' : charListLe bs cs = true := by
              simpa [charListLe, show ¬ b.toNat < c.toNat by omega,
                show ¬ c.toNat < b.toNat by omega] using hbc
            simp [charListLe, show ¬ a.toNat < c.toNat by omega,
              show ¬ c.toNat < a.toNat by omega, ih hab' hbc']
          · simp [charListLe, show ¬ b.toNat < c.toNat by omega, h2] at hbc
        · simp [charListLe, show ¬ a.toNat < b.toNat by omega, h1] at hab

/-- Totality of the lexicographic comparison. -/
theorem charListLe_total :
    ∀ (l1 l2 : List Char), charListLe l1 l2 = true ∨ charListLe l2 l1 = true := by
  intro l1
  induction l1 with
  | nil => intro l2; exact Or.inl (charListLe_nil l2)
  | cons a as ih =>
    intro l2
    cases l2 with
    | nil => exact Or.inr (charListLe_nil _)
    | cons b bs =>
      rcases Nat.lt_trichotomy a.toNat b.toNat with h | h | h
      · exact Or.inl (by simp [charListLe, h])
      · rcases ih bs with h' | h'
        · exact Or.inl (by simp [charListLe, show ¬ a.toNat < b.toNat by omega,
            show ¬ b.toNat < a.toNat by omega, h'])
        · exact Or.inr (by simp [charListLe, show ¬ a.toNat < b.toNat by omega,
            show ¬ b.toNat < a.toNat by omega, h'])
      · exact Or.inr (by simp [charListLe, h])

/-- Characters with equal code points are equal. -/
theorem char_eq_of_toNat_eq {a b : Char} (h : a.toNat = b.toNat) : a = b :=
  Char.eq_of_val_eq (UInt32.eq_of_toBitVec_eq (by
    simp [Char.toNat, UInt32.toNat] at h
    exact BitVec.eq_of_toNat_eq h))

/-- Antisymmetry of the lexicographic comparison. -/
theorem charListLe_antisymm :
    ∀ {l1 l2 : List Char}, charListLe l1 l2 = true → charListLe l2 l1 = true → l1 = l2 := by
  intro l1
  induction l1 with
  | nil =>
    intro l2 _ h21
    cases l2 with
    | nil => rfl
    | cons b bs => simp [charListLe_cons_nil] at h21
  | cons a as ih =>
    intro l2 h12 h21
    cases l2 with
    | nil => simp [charListLe_cons_nil] at h12
    | cons b bs =>
      rcases Nat.lt_trichotomy a.toNat b.toNat with h | h | h
      · simp [charListLe, show ¬ b.toNat < a.toNat by omega, h] at h21
      · have h12' : charListLe as bs = true := by
          simpa [charListLe, show ¬ a.toNat < b.toNat by omega,
            show ¬ b.toNat < a.toNat by omega] using h12
        have h21' : charListLe bs as = true := by
          simpa [charListLe, show ¬ a.toNat < b.toNat by omega,
            show ¬ b.toNat < a.toNat by omega] using h21
        rw [char_eq_of_toNat_eq h, ih h12' h21']
      · simp [charListLe, show ¬ a.toNat < b.toNat by omega, h] at h12

instance : IsTrans String strLe :=
  ⟨fun _ _ _ h1 h2 => charListLe_trans h1 h2⟩

instance : IsTotal String strLe :=
  ⟨fun a b => charListLe_total a.data b.data⟩

instance : IsAntisymm String strLe :=
  ⟨fun a b h1 h2 => by
    cases a with
    | mk da =>
      cases b with
      | mk db => exact congrArg String.mk (charListLe_antisymm h1 h2)⟩

/-- The collected dependencies factor through the per-template
lower-cased dependency lists. -/
theorem collectDeps_factor (ts : List CodeTemplate) :
    collectDeps ts =
      ((ts.map (fun t => t.dependencies.map pyLower)).flatten).filter
        (fun d => !stdLibs.contains d) := by
  simp [collectDeps, List.flatMap_def]

/-- C9: `generate_requirements` is invariant under permutation of the
artifact collection and under the letter case of dependency names (it
depends only on the lower-cased name lists); its result is always
sorted, deduplicated, excludes the standard-library set, and consists of
lower-casings of declared dependencies; and aggregating artifacts
declaring "NumPy" and "numpy" yields exactly ["numpy"]. -/
theorem generateRequirements_spec :
    (∀ (ts ts' : List CodeTemplate), List.Perm ts ts' →
      generateRequirements ts = generateRequirements ts') ∧
    (∀ (ts ts' : List CodeTemplate),
      ts.map (fun t => t.dependencies.map pyLower) =
        ts'.map (fun t => t.dependencies.map pyLower) →
      generateRequirements ts = generateRequirements ts') ∧
    (∀ ts : List CodeTemplate,
      (generateRequirements ts).Sorted strLe ∧
      (generateRequirements ts).Nodup ∧
      (∀ x ∈ generateRequirements ts,
        x ∉ stdLibs ∧ ∃ t ∈ ts, ∃ d ∈ t.dependencies, x = pyLower d)) ∧
    generateRequirements [mkTemplate "a" "a.py" ["NumPy"], mkTemplate "b" "b.py" ["numpy"]] =
      ["numpy"] := by
  refine ⟨?_, ?_, ?_, by decide⟩
  · intro ts ts' hp
    have h1 : List.Perm (collectDeps ts) (collectDeps ts') := (hp.flatMap_right _).filter _
    have h2 := h1.dedup
    exact List.eq_of_perm_of_sorted
      ((List.perm_insertionSort strLe _).trans (h2.trans (List.perm_insertionSort strLe _).symm))
      (List.sorted_insertionSort strLe _) (List.sorted_insertionSort strLe _)
  · intro ts ts' h
    unfold generateRequirements
    rw [collectDeps_factor, collectDeps_factor, h]
  · intro ts
    refine ⟨List.sorted_insertionSort strLe _, ?_, ?_⟩
    · exact ((List.perm_insertionSort strLe _).nodup_iff).mpr (List.nodup_dedup _)
    · intro x hx
      have hx' : x ∈ (collectDeps ts).dedup :=
        ((List.perm_insertionSort strLe _).mem_iff).mp hx
      rw [List.mem_dedup] at hx'
      simp only [collectDeps, List.mem_filter, List.mem_flatMap, List.mem_map] at hx'
      obtain ⟨⟨t, ht, d, hd, hdx⟩, hstd⟩ := hx'
      exact ⟨by simpa using hstd, t, ht, d, hd, hdx.symm⟩

/-- Witness for C9: permutation invariance at a concrete swapped pair
and case invariance at a concrete pair of differently-cased artifact
lists. -/
theorem generateRequirements_spec_witness :
    generateRequirements [mkTemplate "a" "a.py" ["NumPy"], mkTemplate "b" "b.py" ["SciPy"]] =
      generateRequirements [mkTemplate "b" "b.py" ["SciPy"], mkTemplate "a" "a.py" ["NumPy"]] ∧
    generateRequirements [mkTemplate "a" "a.py" ["NumPy"]] =
      generateRequirements [mkTemplate "a" "a.py" ["NUMPY"]] := by
  constructor
  · exact generateRequirements_spec.1 _ _ (List.Perm.swap _ _ _)
  · exact generateRequirements_spec.2.1 _ _ (by decide)

/-! ## Dict lemmas -/

/-- The key list of `dictInsert`: unchanged when the key is present,
extended by the key otherwise. -/
theorem dictInsert_keys {β : Type} (d : List (String × β)) (k : String) (v : β) :
    (dictInsert d k v).map Prod.fst =
      if k ∈ d.map Prod.fst then d.map Prod.fst else d.map Prod.fst ++ [k] := by
  have haux : (d.any (fun p => p.1 = k) = true) ↔ k ∈ d.map Prod.fst := by
    simp [List.any_eq_true, List.mem_map]
  unfold dictInsert
  by_cases h : d.any (fun p => p.1 = k) = true
  · rw [if_pos h, if_pos (haux.mp h), List.map_map]
    apply List.map_congr_left
    intro p _
    by_cases hp : p.1 = k
    · simp [hp]
    · simp [hp]
  · rw [if_neg h, if_neg (fun hm => h (haux.mpr hm))]
    simp

/-- The size of `dictInsert`: unchanged on overwrite, one larger on a
fresh key. -/
theorem dictInsert_length {β : Type} (d : List (String × β)) (k : String) (v : β) :
    (dictInsert d k v).length =
      if k ∈ d.map Prod.fst then d.length else d.length + 1 := by
  have h := congrArg List.length (dictInsert_keys d k v)
  simp only [List.length_map] at h
  rw [h]
  by_cases hm : k ∈ d.map Prod.fst
  · simp [hm]
  · simp [hm]

/-- Replacing the entries holding key `k` does not change lookups of a
different key. -/
theorem find_map_replace_ne {β : Type} (d : List (String × β)) (k k' : String) (v : β)
    (hk : k ≠ k') :
    (d.map (fun p => if p.1 = k then (k, v) else p)).find? (fun q => q.1 = k') =
      d.find? (fun q => q.1 = k') := by
  induction d with
  | nil => rfl
  | cons p d ih =>
    by_cases hp : p.1 = k
    · simp only [List.map_cons, if_pos hp, List.find?_cons]
      have h1 : ¬ (k = k') := hk
      have h2 : ¬ (p.1 = k') := by rw [hp]; exact hk
      simp [h1, h2, ih]
    · simp only [List.map_cons, if_neg hp, List.find?_cons]
      by_cases hq : p.1 = k'
      · simp [hq]
      · simp [hq, ih]

/-- When `k` is present, the overwrite branch of `dictInsert` makes the
first `k`-lookup return the new value. -/
theorem find_map_replace_self {β : Type} (d : List (String × β)) (k : String) (v : β)
    (hmem : k ∈ d.map Prod.fst) :
    (d.map (fun p => if p.1 = k then (k, v) else p)).find? (fun q => q.1 = k) =
      some (k, v) := by
  induction d with
  | nil => simp at hmem
  | cons p d ih =>
    by_cases hp : p.1 = k
    · simp [List.map_cons, if_pos hp, List.find?_cons]
    · have hmem' : k ∈ d.map Prod.fst := by
        rcases List.mem_cons.mp hmem with h | h
        · exact absurd h.symm hp
        · exact h
      simp [List.map_cons, if_neg hp, List.find?_cons, hp, ih hmem']

/-- Python dict write/read law: `d[k] = v` makes `d.get(k)` return `v`
and leaves every other key's lookup unchanged. -/
theorem dictGet_dictInsert {β : Type} (d : List (String × β)) (k k' : String) (v : β) :
    dictGet (dictInsert d k v) k' = if k = k' then some v else dictGet d k' := by
  unfold dictInsert dictGet
  by_cases hany : d.any (fun p => p.1 = k) = true
  · rw [if_pos hany]
    have hmem : k ∈ d.map Prod.fst := by
      rcases List.any_eq_true.mp hany with ⟨p, hp, hpk⟩
      rw [decide_eq_true_eq] at hpk
      exact List.mem_map.mpr ⟨p, hp, hpk⟩
    by_cases hk : k = k'
    · subst hk
      rw [find_map_replace_self d k v hmem]
      simp
    · rw [find_map_replace_ne d k k' v hk, if_neg hk]
  · rw [if_neg hany]
    have hnon : ∀ p ∈ d, ¬ (p.1 = k) := by
      intro p hp hpk
      exact hany (List.any_eq_true.mpr ⟨p, hp, by simp [hpk]⟩)
    by_cases hk : k = k'
    · subst hk
      have h1 : d.find? (fun q => q.1 = k) = none :=
        List.find?_eq_none.mpr (fun p hp => by simp [hnon p hp])
      rw [List.find?_append, h1]
      simp
    · rw [List.find?_append]
      have h2 : List.find? (fun q => q.1 = k') [(k, v)] = none := by
        simp [List.find?, hk]
      rw [h2]
      simp [hk]

/-- Key-set invariant of the step fold of `generate_project_code`. -/
theorem stepFold_keys_toFinset (gen : WorkflowStep → CodeTemplate) :
    ∀ (l : List WorkflowStep) (d : List (String × CodeTemplate)),
      (((l.foldl (fun d step => dictInsert d (gen step).filename (gen step)) d).map
        Prod.fst).toFinset : Finset String) =
        (d.map Prod.fst).toFinset ∪ (l.map (fun s => (gen s).filename)).toFinset := by
  intro l
  induction l with
  | nil => intro d; simp
  | cons s l ih =>
    intro d
    rw [List.foldl_cons, ih]
    have hkeys := dictInsert_keys d (gen s).filename (gen s)
    by_cases hm : (gen s).filename ∈ d.map Prod.fst
    · rw [hkeys, if_pos hm]
      ext x
      simp only [Finset.mem_union, List.mem_toFinset, List.map_cons, List.mem_cons]
      constructor
      · rintro (h | h)
        · exact Or.inl h
        · exact Or.inr (Or.inr h)
      · rintro (h | h | h)
        · exact Or.inl h
        · exact Or.inl (h ▸ hm)
        · exact Or.inr h
    · rw [hkeys, if_neg hm]
      ext x
      simp only [Finset.mem_union, List.mem_toFinset, List.map_cons, List.mem_cons,
        List.mem_append, List.mem_singleton]
      tauto

/-- Nodup invariant of the step fold's key list. -/
theorem stepFold_keys_nodup (gen : WorkflowStep → CodeTemplate) :
    ∀ (l : List WorkflowStep) (d : List (String × CodeTemplate)),
      (d.map Prod.fst).Nodup →
      ((l.foldl (fun d step => dictInsert d (gen step).filename (gen step)) d).map
        Prod.fst).Nodup := by
  intro l
  induction l with
  | nil => intro d h; exact h
  | cons s l ih =>
    intro d h
    rw [List.foldl_cons]
    apply ih
    rw [dictInsert_keys]
    by_cases hm : (gen s).filename ∈ d.map Prod.fst
    · rw [if_pos hm]; exact h
    · rw [if_neg hm]
      simp [List.nodup_append, h, hm]

/-- Lookup characterization of the step fold: a key's value is the
artifact of the last step that wrote that filename, falling back to the
initial dict. -/
theorem stepFold_dictGet (gen : WorkflowStep → CodeTemplate) :
    ∀ (l : List WorkflowStep) (d : List (String × CodeTemplate)) (k : String),
      dictGet (l.foldl (fun d step => dictInsert d (gen step).filename (gen step)) d) k =
        match l.reverse.find? (fun s => (gen s).filename = k) with
        | some s => some (gen s)
        | none => dictGet d k := by
  intro l
  induction l with
  | nil => intro d k; rfl
  | cons s l ih =>
    intro d k
    rw [List.foldl_cons, ih, List.reverse_cons, List.find?_append]
    cases hfind : l.reverse.find? (fun s => (gen s).filename = k) with
    | some s' => simp
    | none =>
      simp only [Option.none_orElse]
      by_cases hk : (gen s).filename = k
      · simp [List.find?, hk, dictGet_dictInsert]
      · simp [List.find?, hk, dictGet_dictInsert]

/-- C10: `generate_project_code` keys its returned artifact map by
filename, so when two steps' artifacts share a filename, or a step's
artifact is named `main.py`, the returned map holds fewer artifacts than
plan steps plus one; and for any filename other than `main.py`, the
stored artifact is that of the last step that wrote the filename — a
later write silently replaces an earlier one. -/
theorem generateProjectCode_filename_keying :
    ∀ (plan : ImplementationPlan) (gen : WorkflowStep → CodeTemplate),
      ((¬ (plan.steps.map (fun s => (gen s).filename)).Nodup ∨
          "main.py" ∈ plan.steps.map (fun s => (gen s).filename)) →
        (generateProjectCode plan gen).length < plan.steps.length + 1) ∧
      (∀ k, k ≠ "main.py" →
        dictGet (generateProjectCode plan gen) k =
          match plan.steps.reverse.find? (fun s => (gen s).filename = k) with
          | some s => some (gen s)
          | none => none) := by
  intro plan gen
  have hproj : generateProjectCode plan gen =
      dictInsert (plan.steps.foldl (fun d step => dictInsert d (gen step).filename (gen step)) [])
        "main.py"
        (generateMainFile plan
          (plan.steps.foldl (fun d step => dictInsert d (gen step).filename (gen step)) [])) := rfl
  set T := plan.steps.foldl (fun d step => dictInsert d (gen step).filename (gen step)) [] with hTdef
  have hnodupkeys : (T.map Prod.fst).Nodup := stepFold_keys_nodup gen plan.steps [] (by simp)
  have hkeysF : (T.map Prod.fst).toFinset =
      (plan.steps.map (fun s => (gen s).filename)).toFinset := by
    have h := stepFold_keys_toFinset gen plan.steps []
    simpa using h
  have hlenT : T.length = (plan.steps.map (fun s => (gen s).filename)).toFinset.card := by
    have h1 : (T.map Prod.fst).toFinset.card = (T.map Prod.fst).length :=
      List.toFinset_card_of_nodup hnodupkeys
    rw [hkeysF, List.length_map] at h1
    exact h1.symm
  have hFle : (plan.steps.map (fun s => (gen s).filename)).toFinset.card ≤ plan.steps.length := by
    calc (plan.steps.map (fun s => (gen s).filename)).toFinset.card
        ≤ (plan.steps.map (fun s => (gen s).filename)).length := List.toFinset_card_le _
      _ = plan.steps.length := List.length_map _ _
  constructor
  · intro hcol
    rcases hcol with hdup | hmain
    · have hcard : (plan.steps.map (fun s => (gen s).filename)).toFinset.card <
          plan.steps.length := by
        have he : (plan.steps.map (fun s => (gen s).filename)).toFinset.card =
            (plan.steps.map (fun s => (gen s).filename)).dedup.length :=
          List.card_toFinset _
        have hsub := List.dedup_sublist (plan.steps.map (fun s => (gen s).filename))
        have hle := hsub.length_le
        have hne : (plan.steps.map (fun s => (gen s).filename)).dedup.length ≠
            (plan.steps.map (fun s => (gen s).filename)).length := by
          intro heq
          exact hdup (by rw [← List.dedup_eq_self]; exact hsub.eq_of_length heq)
        have hlenmap : (plan.steps.map (fun s => (gen s).filename)).length =
            plan.steps.length := List.length_map _ _
        omega
      rw [hproj, dictInsert_length]
      by_cases hm : "main.py" ∈ T.map Prod.fst
      · rw [if_pos hm]; omega
      · rw [if_neg hm]; omega
    · have hm : "main.py" ∈ T.map Prod.fst := by
        have h : "main.py" ∈ (T.map Prod.fst).toFinset := by
          rw [hkeysF]; exact List.mem_toFinset.mpr hmain
        exact List.mem_toFinset.mp h
      rw [hproj, dictInsert_length, if_pos hm, hlenT]
      omega
  · intro k hk
    rw [hproj, dictGet_dictInsert, if_neg (fun h => hk h.symm)]
    rw [stepFold_dictGet gen plan.steps [] k]
    cases hfind : plan.steps.reverse.find? (fun s => (gen s).filename = k) <;>
      simp [dictGet]

/-- Witness for C10: two steps whose artifacts both carry filename
`same.py` produce a map of 2 (< 3) entries, and the stored artifact
under `same.py` is the second (later-written) step's. -/
theorem generateProjectCode_filename_keying_witness :
    (generateProjectCode planTwo (fun s => mkTemplate s.step_id "same.py" [])).length < 3 ∧
    dictGet (generateProjectCode planTwo (fun s => mkTemplate s.step_id "same.py" []))
        "same.py" = some (mkTemplate "step_02" "same.py" []) := by
  constructor
  · exact (generateProjectCode_filename_keying planTwo
      (fun s => mkTemplate s.step_id "same.py" [])).1 (Or.inl (by decide))
  · exact ((generateProjectCode_filename_keying planTwo
      (fun s => mkTemplate s.step_id "same.py" [])).2 "same.py" (by decide)).trans (by rfl)

/-! ## Lemmas about the step-module map of `generate_main_file` -/

/-- The step of the `buildStepModules` fold, named for the lemmas. -/
theorem buildStepModules_eq_foldl (tmpls : List (String × CodeTemplate)) :
    buildStepModules tmpls =
      tmpls.foldl
        (fun m p =>
          if p.2.step_id = "main" then m
          else
            match matchStepId (stripPy p.2.filename.toList) with
            | some sid => dictInsert m sid (String.mk (stripPy p.2.filename.toList))
            | none => m)
        [] := rfl

/-- Accumulator-generalized membership characterization of the
step-module map: an id is mapped exactly when the accumulator already
maps it or some non-main template's `.py`-stripped filename matches the
id by the `step_<digits>` regex. -/
theorem dictGet_buildStepModules_fold_isSome :
    ∀ (tmpls : List (String × CodeTemplate)) (m : List (String × String)) (sid : String),
      (dictGet
        (tmpls.foldl
          (fun m p =>
            if p.2.step_id = "main" then m
            else
              match matchStepId (stripPy p.2.filename.toList) with
              | some s => dictInsert m s (String.mk (stripPy p.2.filename.toList))
              | none => m)
          m) sid).isSome = true ↔
      (dictGet m sid).isSome = true ∨
        ∃ p ∈ tmpls, p.2.step_id ≠ "main" ∧
          matchStepId (stripPy p.2.filename.toList) = some sid := by
  intro tmpls
  induction tmpls with
  | nil => intro m sid; simp
  | cons p tmpls ih =>
    intro m sid
    rw [List.foldl_cons]
    by_cases hmain : p.2.step_id = "main"
    · rw [if_pos hmain, ih]
      constructor
      · rintro (h | ⟨q, hq, hc⟩)
        · exact Or.inl h
        · exact Or.inr ⟨q, List.mem_cons_of_mem _ hq, hc⟩
      · rintro (h | ⟨q, hq, hne, hm⟩)
        · exact Or.inl h
        · rcases List.mem_cons.mp hq with rfl | hq'
          · exact absurd hmain hne
          · exact Or.inr ⟨q, hq', hne, hm⟩
    · rw [if_neg hmain]
      cases hmatch : matchStepId (stripPy p.2.filename.toList) with
      | some s =>
        rw [ih]
        have hins : (dictGet (dictInsert m s (String.mk (stripPy p.2.filename.toList)))
            sid).isSome = true ↔ s = sid ∨ (dictGet m sid).isSome = true := by
          rw [dictGet_dictInsert]
          by_cases hs : s = sid
          · simp [hs]
          · simp [hs]
        rw [hins]
        constructor
        · rintro ((rfl | h) | ⟨q, hq, hc⟩)
          · exact Or.inr ⟨p, List.mem_cons_self _ _, hmain, hmatch⟩
          · exact Or.inl h
          · exact Or.inr ⟨q, List.mem_cons_of_mem _ hq, hc⟩
        · rintro (h | ⟨q, hq, hne, hm⟩)
          · exact Or.inl (Or.inr h)
          · rcases List.mem_cons.mp hq with rfl | hq'
            · rw [hmatch] at hm
              exact Or.inl (Or.inl (Option.some.inj hm))
            · exact Or.inr ⟨q, hq', hne, hm⟩
      | none =>
        rw [ih]
        constructor
        · rintro (h | ⟨q, hq, hc⟩)
          · exact Or.inl h
          · exact Or.inr ⟨q, List.mem_cons_of_mem _ hq, hc⟩
        · rintro (h | ⟨q, hq, hne, hm⟩)
          · exact Or.inl h
          · rcases List.mem_cons.mp hq with rfl | hq'
            · rw [hmatch] at hm; cases hm
            · exact Or.inr ⟨q, hq', hne, hm⟩

/-- Membership characterization of the step-module map itself. -/
theorem dictGet_buildStepModules_isSome (tmpls : List (String × CodeTemplate)) (sid : String) :
    (dictGet (buildStepModules tmpls) sid).isSome = true ↔
      ∃ p ∈ tmpls, p.2.step_id ≠ "main" ∧
        matchStepId (stripPy p.2.filename.toList) = some sid := by
  rw [buildStepModules_eq_foldl, dictGet_buildStepModules_fold_isSome]
  simp [dictGet]

/-- Every module name stored in the step-module map is the
`.py`-stripped filename base of some template in the artifact set. -/
theorem dictGet_buildStepModules_fold_value :
    ∀ (tmpls : List (String × CodeTemplate)) (m : List (String × String)) (sid mod : String),
      dictGet
        (tmpls.foldl
          (fun m p =>
            if p.2.step_id = "main" then m
            else
              match matchStepId (stripPy p.2.filename.toList) with
              | some s => dictInsert m s (String.mk (stripPy p.2.filename.toList))
              | none => m)
          m) sid = some mod →
      dictGet m sid = some mod ∨
        ∃ p ∈ tmpls, mod = String.mk (stripPy p.2.filename.toList) := by
  intro tmpls
  induction tmpls with
  | nil => intro m sid mod h; exact Or.inl h
  | cons p tmpls ih =>
    intro m sid mod h
    rw [List.foldl_cons] at h
    by_cases hmain : p.2.step_id = "main"
    · rw [if_pos hmain] at h
      rcases ih _ _ _ h with h' | ⟨q, hq, hv⟩
      · exact Or.inl h'
      · exact Or.inr ⟨q, List.mem_cons_of_mem _ hq, hv⟩
    · rw [if_neg hmain] at h
      cases hmatch : matchStepId (stripPy p.2.filename.toList) with
      | some s =>
        rw [hmatch] at h
        rcases ih _ _ _ h with h' | ⟨q, hq, hv⟩
        · rw [dictGet_dictInsert] at h'
          by_cases hs : s = sid
          · rw [if_pos hs] at h'
            exact Or.inr ⟨p, List.mem_cons_self _ _, (Option.some.inj h').symm⟩
          · rw [if_neg hs] at h'
            exact Or.inl h'
        · exact Or.inr ⟨q, List.mem_cons_of_mem _ hq, hv⟩
      | none =>
        rw [hmatch] at h
        rcases ih _ _ _ h with h' | ⟨q, hq, hv⟩
        · exact Or.inl h'
        · exact Or.inr ⟨q, List.mem_cons_of_mem _ hq, hv⟩

/-- C4 counterexample: an artifact declaring `step_id = "step_01"` but
carrying filename `loader.py` is not associated with its step — the
step's execution block is omitted and no step module is imported, so the
association is not made via the declared `step_id` field. -/
theorem mainFile_ignores_declared_step_id :
    executionOrder planPlainName tmplsPlainName = [] ∧
    mainImports planPlainName tmplsPlainName =
      ["import sys", "import time", "from pathlib import Path"] := by
  decide

/-- C4 amended: `generate_main_file` associates artifacts to steps by
parsing the artifact's filename (anchored `step_<digits>` match on the
`.py`-stripped base), not by the declared `step_id` field: an id is in
the module map exactly when some non-main artifact's filename base
matches it, and the map is unchanged under any rewriting of the
artifacts' `step_id` fields that preserves only the `"main"` flag and
the filenames. -/
theorem buildStepModules_matches_by_filename :
    (∀ (tmpls : List (String × CodeTemplate)) (sid : String),
      (dictGet (buildStepModules tmpls) sid).isSome = true ↔
        ∃ p ∈ tmpls, p.2.step_id ≠ "main" ∧
          matchStepId (stripPy p.2.filename.toList) = some sid) ∧
    (∀ (tmpls tmpls' : List (String × CodeTemplate)),
      List.Forall₂ (fun p q : String × CodeTemplate =>
        p.2.filename = q.2.filename ∧ (p.2.step_id = "main" ↔ q.2.step_id = "main"))
        tmpls tmpls' →
      buildStepModules tmpls = buildStepModules tmpls') := by
  constructor
  · exact dictGet_buildStepModules_isSome
  · suffices haux : ∀ (as bs : List (String × CodeTemplate)),
        List.Forall₂ (fun p q : String × CodeTemplate =>
          p.2.filename = q.2.filename ∧ (p.2.step_id = "main" ↔ q.2.step_id = "main")) as bs →
        ∀ m : List (String × String),
          as.foldl
            (fun m p =>
              if p.2.step_id = "main" then m
              else
                match matchStepId (stripPy p.2.filename.toList) with
                | some s => dictInsert m s (String.mk (stripPy p.2.filename.toList))
                | none => m) m =
          bs.foldl
            (fun m p =>
              if p.2.step_id = "main" then m
              else
                match matchStepId (stripPy p.2.filename.toList) with
                | some s => dictInsert m s (String.mk (stripPy p.2.filename.toList))
                | none => m) m by
      intro tmpls tmpls' h
      rw [buildStepModules_eq_foldl, buildStepModules_eq_foldl]
      exact haux tmpls tmpls' h []
    intro as bs hab
    induction hab with
    | nil => intro m; rfl
    | @cons a b as' bs' h1 h2 ih =>
      intro m
      obtain ⟨hfn, hflag⟩ := h1
      rw [List.foldl_cons, List.foldl_cons]
      by_cases hm : a.2.step_id = "main"
      · rw [if_pos hm, if_pos (hflag.mp hm)]
        exact ih m
      · rw [if_neg hm, if_neg (fun hb => hm (hflag.mpr hb)), hfn]
        exact ih _

/-- Witness for the amended C4: `step_01` is mapped because an artifact's
filename base matches it, and two artifact sets differing only in their
declared `step_id` fields (same filenames, same main-flags) build the
same module map. -/
theorem buildStepModules_matches_by_filename_witness :
    (dictGet (buildStepModules tmplsTwoSteps) "step_01").isSome = true ∧
    buildStepModules [("step_07_x.py", mkTemplate "idA" "step_07_x.py" [])] =
      buildStepModules [("step_07_x.py", mkTemplate "idB" "step_07_x.py" [])] := by
  constructor
  · exact (buildStepModules_matches_by_filename.1 tmplsTwoSteps "step_01").mpr (by decide)
  · exact buildStepModules_matches_by_filename.2 _ _
      (List.Forall₂.cons (by constructor <;> decide) List.Forall₂.nil)

/-- C1 counterexample: the emitted execution order is the declaration
order, so in a plan whose first declared step depends on the second, the
step's index (0) is smaller than its dependency's index (1), violating
the dependency-respecting contract; moreover a plan with a 2-cycle and a
plan with an unknown dependency id are both processed without any error
being raised. -/
theorem executionOrder_not_topological :
    executionOrder planOutOfOrder tmplsTwoSteps = ["step_01", "step_02"] ∧
    planOutOfOrder.steps.map (fun s => s.dependencies) = [["step_02"], []] ∧
    executionOrder planCycle tmplsTwoSteps = ["step_01", "step_02"] ∧
    executionOrder planUnknownDep tmplsTwoSteps = ["step_01"] := by
  decide

/-- C1 amended: the step ordering emitted into the entry point is the
plan's declaration order restricted to steps whose artifact filename
base matches their id (no topological sort), and it is invariant under
arbitrary rewriting of every step's `dependencies` field; no dependency
validation is performed and no error is ever raised (the operation is
total). -/
theorem executionOrder_declaration_order :
    (∀ (plan : ImplementationPlan) (tmpls : List (String × CodeTemplate)),
      executionOrder plan tmpls =
        (plan.steps.filter (fun s =>
          decide (∃ p ∈ tmpls, p.2.step_id ≠ "main" ∧
            matchStepId (stripPy p.2.filename.toList) = some s.step_id))).map
          (fun s => s.step_id)) ∧
    (∀ (plan : ImplementationPlan) (tmpls : List (String × CodeTemplate))
      (f : WorkflowStep → List String),
      executionOrder
        { plan with steps := plan.steps.map (fun s => { s with dependencies := f s }) } tmpls =
      executionOrder plan tmpls) := by
  constructor
  · intro plan tmpls
    unfold executionOrder executedSteps
    congr 1
    apply List.filter_congr
    intro s _
    have h := dictGet_buildStepModules_isSome tmpls s.step_id
    by_cases hP : ∃ p ∈ tmpls, p.2.step_id ≠ "main" ∧
        matchStepId (stripPy p.2.filename.toList) = some s.step_id
    · rw [h.mpr hP]
      exact (decide_eq_true hP).symm
    · have hns : ¬ ((dictGet (buildStepModules tmpls) s.step_id).isSome = true) :=
        fun hh => hP (h.mp hh)
      rw [Bool.not_eq_true] at hns
      rw [hns]
      exact (decide_eq_false hP).symm
  · intro plan tmpls f
    unfold executionOrder executedSteps
    simp only [List.filter_map, List.map_map]
    rfl

/-! ## Lemmas about filename stripping and the step-id pattern -/

/-- `stripPy` keeps a head character that is not a dot. -/
theorem stripPy_cons_ne_dot {c : Char} (rest : List Char) (h : c ≠ '.') :
    stripPy (c :: rest) = c :: stripPy rest := by
  conv_lhs => rw [stripPy.eq_def]
  split
  · rename_i rest' heq
    rw [List.cons.injEq] at heq
    exact absurd heq.1 h
  · rename_i c' rest' heq
    rw [List.cons.injEq] at heq
    rw [heq.1, heq.2]
  · rename_i heq
    cases heq

/-- `stripPy` passes over a dot-free prefix unchanged. -/
theorem stripPy_append_no_dot :
    ∀ (a b : List Char), '.' ∉ a → stripPy (a ++ b) = a ++ stripPy b := by
  intro a
  induction a with
  | nil => intro b _; rfl
  | cons c a ih =>
    intro b h
    have hc : c ≠ '.' := fun hc => h (List.mem_cons.mpr (Or.inl hc.symm))
    rw [List.cons_append, stripPy_cons_ne_dot _ hc,
      ih b (fun hm => h (List.mem_cons_of_mem _ hm))]
    rfl

/-- `takeWhile` consumes an all-true block and stops at a false element. -/
theorem takeWhile_all_append_stop {p : Char → Bool} :
    ∀ (a : List Char) (x : Char) (r : List Char),
      (∀ c ∈ a, p c = true) → p x = false → (a ++ x :: r).takeWhile p = a := by
  intro a
  induction a with
  | nil => intro x r _ hx; simp [List.takeWhile_cons, hx]
  | cons c a ih =>
    intro x r ha hx
    have hc := ha c (List.mem_cons_self c a)
    simp [List.takeWhile_cons, hc, ih x r (fun d hd => ha d (List.mem_cons_of_mem _ hd)) hx]

/-- Unpacking a step id that matches its own `step_<digits>` pattern. -/
theorem matchStepId_self_elim {sid : String} (h : matchStepId sid.toList = some sid) :
    ∃ ds : List Char,
      sid.toList = "step_".toList ++ ds ∧ ds ≠ [] ∧ ∀ c ∈ ds, c.isDigit = true := by
  simp only [matchStepId] at h
  split_ifs at h with hpre hempty
  refine ⟨(sid.toList.drop 5).takeWhile Char.isDigit, ?_, ?_, ?_⟩
  · have hd := congrArg String.data (Option.some.inj h)
    exact hd.symm
  · intro hnil
    rw [hnil] at hempty
    exact hempty rfl
  · intro c hc
    exact List.mem_takeWhile_imp hc

/-- The `.py`-stripped base of the error-placeholder filename of a step
whose id has `step_<digits>` form still matches that id. -/
theorem matchStepId_error_suffix {sid : String} (h : matchStepId sid.toList = some sid) :
    matchStepId (stripPy (sid ++ "_error.py").toList) = some sid := by
  obtain ⟨ds, hd, hne, hdig⟩ := matchStepId_self_elim h
  have htl : (sid ++ "_error.py").toList = sid.toList ++ "_error.py".toList :=
    String.data_append sid "_error.py"
  have hnodot : '.' ∉ sid.toList ++ "_error".toList := by
    intro hmem
    rcases List.mem_append.mp hmem with hm | hm
    · rw [hd] at hm
      rcases List.mem_append.mp hm with hm' | hm'
      · revert hm'; decide
      · exact absurd (hdig _ hm') (by decide)
    · revert hm; decide
  have hsplit : "_error.py".toList = "_error".toList ++ ('.' :: 'p' :: 'y' :: []) := rfl
  rw [htl, hsplit, ← List.append_assoc, stripPy_append_no_dot _ _ hnodot,
    show stripPy ('.' :: 'p' :: 'y' :: []) = [] from rfl, List.append_nil, hd,
    List.append_assoc]
  simp only [matchStepId]
  rw [if_pos (by rw [List.isPrefixOf_iff_prefix]; exact List.prefix_append _ _)]
  have hdrop : ("step_".toList ++ (ds ++ "_error".toList)).drop 5 = ds ++ "_error".toList := by
    rw [show (5 : Nat) = ("step_".toList).length from rfl]
    exact List.drop_left _ _
  rw [hdrop, show ("_error".toList : List Char) = '_' :: "error".toList from rfl,
    takeWhile_all_append_stop ds '_' "error".toList hdig (by decide)]
  have hds : ds.isEmpty = false := by
    cases ds with
    | nil => exact absurd rfl hne
    | cons c l => rfl
  rw [if_neg (by rw [hds]; exact fun hc => Bool.noConfusion hc)]
  cases sid with
  | mk data =>
    have : data = "step_".toList ++ ds := hd
    rw [this]

/-- C3 counterexample: in the three-step plan where `step_02`'s
generation failed after exhausting retries, the assembled entry point
does not skip the failed step — the placeholder module `step_02_error`
is imported and `step_02` appears in the execution order, because its
placeholder filename `step_02_error.py` matches the `step_<digits>`
pattern like any successful artifact's. -/
theorem assembler_imports_failed_placeholder :
    "import step_02_error" ∈ mainImports planChain tmplsChainFailed ∧
    "step_02" ∈ executionOrder planChain tmplsChainFailed := by
  decide

/-- C3 amended: the entry point never references an artifact missing
from the artifact set (every step import beyond the three fixed ones is
the `.py`-stripped filename base of some artifact); but a failed step is
not skipped: whenever the artifact set holds the step's error
placeholder (filename `<step_id>_error.py`) and the step id has
`step_<digits>` form, the step is imported-and-executed like any other. -/
theorem assembler_references_and_placeholders :
    (∀ (plan : ImplementationPlan) (tmpls : List (String × CodeTemplate)) (imp : String),
      imp ∈ mainImports plan tmpls →
      imp ∈ (["import sys", "import time", "from pathlib import Path"] : List String) ∨
        ∃ p ∈ tmpls, imp = "import " ++ String.mk (stripPy p.2.filename.toList)) ∧
    (∀ (plan : ImplementationPlan) (tmpls : List (String × CodeTemplate)) (s : WorkflowStep),
      s ∈ plan.steps →
      matchStepId s.step_id.toList = some s.step_id →
      (∃ p ∈ tmpls, p.2.step_id ≠ "main" ∧ p.2.filename = s.step_id ++ "_error.py") →
      s.step_id ∈ executionOrder plan tmpls) := by
  constructor
  · intro plan tmpls imp himp
    rw [mainImports, List.mem_append] at himp
    rcases himp with hfix | hstep
    · exact Or.inl hfix
    · rw [List.mem_filterMap] at hstep
      obtain ⟨s, _, hmap⟩ := hstep
      rw [Option.map_eq_some'] at hmap
      obtain ⟨mod, hget, rfl⟩ := hmap
      rw [buildStepModules_eq_foldl] at hget
      rcases dictGet_buildStepModules_fold_value tmpls [] s.step_id mod hget with hnil | hex
      · cases hnil
      · obtain ⟨p, hp, hv⟩ := hex
        exact Or.inr ⟨p, hp, by rw [hv]⟩
  · intro plan tmpls s hs hform hph
    obtain ⟨p, hp, hne, hfn⟩ := hph
    have hmatch : matchStepId (stripPy p.2.filename.toList) = some s.step_id := by
      rw [hfn]
      exact matchStepId_error_suffix hform
    have hsome : (dictGet (buildStepModules tmpls) s.step_id).isSome = true :=
      (dictGet_buildStepModules_isSome tmpls s.step_id).mpr ⟨p, hp, hne, hmatch⟩
    rw [executionOrder, executedSteps]
    exact List.mem_map.mpr ⟨s, List.mem_filter.mpr ⟨hs, hsome⟩, rfl⟩

/-- Witness for the amended C3 at the concrete failed-step scenario:
the `step_01_setup` import is accounted for by an artifact in the set,
and the failed `step_02` is executed because its placeholder is in the
set. -/
theorem assembler_references_and_placeholders_witness :
    ("import step_01_setup" ∈
        (["import sys", "import time", "from pathlib import Path"] : List String) ∨
      ∃ p ∈ tmplsChainFailed,
        "import step_01_setup" = "import " ++ String.mk (stripPy p.2.filename.toList)) ∧
    "step_02" ∈ executionOrder planChain tmplsChainFailed := by
  constructor
  · exact assembler_references_and_placeholders.1 planChain tmplsChainFailed
      "import step_01_setup" (by decide)
  · exact assembler_references_and_placeholders.2 planChain tmplsChainFailed
      (mkStep "step_02" ["step_01"]) (by decide) (by decide)
      ⟨("step_02_error.py",
        errorPlaceholder (mkStep "step_02" ["step_01"]) (some (.providerError "Connection refused"))),
        by decide, by decide, by decide⟩

/-! ## Scanning lemmas for the response-cleaning heuristic -/

/-- `dropWhile` passes over a block and stops at the first failing
element after it. -/
theorem dropWhile_append_stop {p : Char → Bool} {d : Char} (hd : p d = false) :
    ∀ (a b : List Char), (a ++ d :: b).dropWhile p = a.dropWhile p ++ d :: b := by
  intro a
  induction a with
  | nil => intro b; simp [List.dropWhile_cons, hd]
  | cons c a ih =>
    intro b
    rw [List.cons_append, List.dropWhile_cons, List.dropWhile_cons]
    cases hc : p c with
    | true => simp [ih]
    | false => simp

/-- `lstrip` keeps a list whose head is not whitespace. -/
theorem lstrip_cons_not_ws {c : Char} (cs : List Char) (h : isPyWs c = false) :
    lstrip (c :: cs) = c :: cs := by
  simp [lstrip, List.dropWhile_cons, h]

/-- `rstrip` keeps a list whose last element is not whitespace. -/
theorem rstrip_append_not_ws {d : Char} (cs : List Char) (h : isPyWs d = false) :
    rstrip (cs ++ [d]) = cs ++ [d] := by
  simp [rstrip, List.reverse_append, List.dropWhile_cons, h]

/-- `pyStrip` keeps a list delimited by non-whitespace characters. -/
theorem pyStrip_cons_append_last {c d : Char} (l : List Char)
    (hc : isPyWs c = false) (hd : isPyWs d = false) :
    pyStrip (c :: (l ++ [d])) = c :: (l ++ [d]) := by
  rw [pyStrip, lstrip_cons_not_ws _ hc,
    show c :: (l ++ [d]) = (c :: l) ++ [d] from rfl, rstrip_append_not_ws _ hd]

/-- `lstrip` distributes over an append whose right part starts with a
non-whitespace character. -/
theorem lstrip_append_stop {d : Char} (hd : isPyWs d = false) (a b : List Char) :
    lstrip (a ++ d :: b) = lstrip a ++ d :: b :=
  dropWhile_append_stop hd a b

/-- `rstrip` distributes over an append whose left part ends with a
non-whitespace character. -/
theorem rstrip_append_stop {d : Char} (hd : isPyWs d = false) (a b : List Char) :
    rstrip ((a ++ [d]) ++ b) = (a ++ [d]) ++ rstrip b := by
  rw [rstrip, List.reverse_append, List.reverse_append,
    show ([d] : List Char).reverse = [d] from rfl, List.append_assoc,
    show ([d] : List Char) ++ a.reverse = d :: a.reverse from rfl,
    dropWhile_append_stop hd, List.reverse_append]
  simp [rstrip]

/-- Searching for a pattern at the start of its own occurrence. -/
theorem findSeq_append_self (pat rest : List Char) (hp : pat ≠ []) :
    findSeq pat (pat ++ rest) = some 0 := by
  have hpre : pat.isPrefixOf (pat ++ rest) = true := by
    rw [List.isPrefixOf_iff_prefix]
    exact List.prefix_append _ _
  cases pat with
  | nil => exact absurd rfl hp
  | cons c p =>
    rw [List.cons_append]
    simp only [findSeq]
    rw [List.cons_append] at hpre
    rw [if_pos hpre]

/-- A pattern whose head character does not occur in `a` is found in
`a ++ b` exactly where it is found in `b`, shifted. -/
theorem findSeq_append_of_head_notMem {hp : Char} {pt : List Char} :
    ∀ (a b : List Char), hp ∉ a →
      findSeq (hp :: pt) (a ++ b) = (findSeq (hp :: pt) b).map (· + a.length) := by
  intro a
  induction a with
  | nil =>
    intro b _
    rw [List.nil_append]
    cases h : findSeq (hp :: pt) b <;> simp [h]
  | cons c a ih =>
    intro b hmem
    have hne : hp ≠ c := fun h => hmem (List.mem_cons.mpr (Or.inl h))
    rw [List.cons_append]
    simp only [findSeq]
    have hpre : (hp :: pt).isPrefixOf (c :: (a ++ b)) = false := by
      simp [List.isPrefixOf, hne]
    rw [hpre]
    simp only [Bool.false_eq_true, if_false]
    rw [ih b (fun h => hmem (List.mem_cons_of_mem _ h))]
    cases h : findSeq (hp :: pt) b <;> simp [Nat.add_assoc]

/-- A pattern whose head character does not occur in the text is not
found at all. -/
theorem findSeq_none_of_head_notMem {hp : Char} {pt : List Char} (l : List Char)
    (h : hp ∉ l) : findSeq (hp :: pt) l = none := by
  have this := @findSeq_append_of_head_notMem hp pt l [] h
  rw [List.append_nil] at this
  rw [this]
  rfl

/-- Searching a character at the head of a list. -/
theorem findChar_cons_self (c : Char) (cs : List Char) : findChar c (c :: cs) = some 0 := by
  simp [findChar]

/-- A character absent from `a` is found in `a ++ b` exactly where it is
found in `b`, shifted. -/
theorem findChar_append_of_notMem {c : Char} :
    ∀ (a b : List Char), c ∉ a →
      findChar c (a ++ b) = (findChar c b).map (· + a.length) := by
  intro a
  induction a with
  | nil =>
    intro b _
    rw [List.nil_append]
    cases h : findChar c b <;> simp [h]
  | cons d a ih =>
    intro b hmem
    have hne : d ≠ c := fun h => hmem (List.mem_cons.mpr (Or.inl h.symm))
    rw [List.cons_append]
    simp only [findChar]
    rw [if_neg hne, ih b (fun h => hmem (List.mem_cons_of_mem _ h))]
    cases h : findChar c b <;> simp [Nat.add_assoc]

/-- A character absent from the text is not found. -/
theorem findChar_none_of_notMem {c : Char} (l : List Char) (h : c ∉ l) :
    findChar c l = none := by
  have := findChar_append_of_notMem l [] h
  rw [List.append_nil] at this
  rw [this]
  rfl

/-- A present character is found. -/
theorem findChar_isSome_of_mem {c : Char} :
    ∀ (l : List Char), c ∈ l → (findChar c l).isSome = true := by
  intro l
  induction l with
  | nil => intro h; cases h
  | cons d l ih =>
    intro h
    simp only [findChar]
    by_cases hd : d = c
    · rw [if_pos hd]; rfl
    · rw [if_neg hd]
      rcases List.mem_cons.mp h with h' | h'
      · exact absurd h'.symm hd
      · cases hfind : findChar c l with
        | none => rw [hfind] at ih; exact absurd (ih h') (by simp)
        | some k => simp

/-- The last occurrence of the block-closing character, when everything
after it is free of that character. -/
theorem rfindChar_append_last {d : Char} (x post : List Char) (h : d ∉ post) :
    rfindChar d ((x ++ [d]) ++ post) = some x.length := by
  have hrev : ((x ++ [d]) ++ post).reverse = post.reverse ++ (d :: x.reverse) := by
    rw [List.reverse_append, List.reverse_append]
    rfl
  have hmem : d ∉ post.reverse := fun hm => h (List.mem_reverse.mp hm)
  rw [rfindChar, hrev, findChar_append_of_notMem _ _ hmem, findChar_cons_self]
  simp only [Option.map_some', List.length_append, List.length_reverse, List.length_cons,
    List.length_nil]
  congr 1
  omega

/-! ## Behavior of the clean-up stages -/

/-- `lstrip` drops a whitespace head. -/
theorem lstrip_cons_ws {w : Char} (x : List Char) (hw : isPyWs w = true) :
    lstrip (w :: x) = lstrip x := by
  simp [lstrip, List.dropWhile_cons, hw]

/-- `rstrip` drops a whitespace last element. -/
theorem rstrip_append_ws {w : Char} (y : List Char) (hw : isPyWs w = true) :
    rstrip (y ++ [w]) = rstrip y := by
  simp [rstrip, List.reverse_append, List.dropWhile_cons, hw]

/-- Texts ending in the closing brace character end with it. -/
theorem endsWithChar_append_last (d : Char) (y : List Char) :
    endsWithChar d (y ++ [d]) = true := by
  simp [endsWithChar, List.reverse_append, startsWithChar]

/-- A fence-free text passes the fence-cutting stage unchanged. -/
theorem cutFences_of_no_backtick (t : List Char) (h : '`' ∉ t) : cutFences t = t := by
  have h1 : findSeq fenceJsonTag t = none :=
    @findSeq_none_of_head_notMem '`' "``json".toList t h
  have h2 : findSeq fenceTag t = none :=
    @findSeq_none_of_head_notMem '`' "``".toList t h
  unfold cutFences
  rw [h1, h2]

/-- A text already starting with the opening brace passes the head-trim
stage unchanged. -/
theorem trimToBrace_of_startsWith (t : List Char) (h : startsWithChar '\x7b' t = true) :
    trimToBrace t = t := by
  unfold trimToBrace
  rw [h]
  rfl

/-- The head-trim stage drops a nonempty brace-free prefix down to the
first opening brace. -/
theorem trimToBrace_of_prefix (pre X : List Char) (hne : pre ≠ []) (hmem : '\x7b' ∉ pre) :
    trimToBrace (pre ++ '\x7b' :: X) = '\x7b' :: X := by
  have hstart : startsWithChar '\x7b' (pre ++ '\x7b' :: X) = false := by
    cases pre with
    | nil => exact absurd rfl hne
    | cons c p =>
      have hc : ¬ (c = '\x7b') := fun h => hmem (List.mem_cons.mpr (Or.inl h.symm))
      rw [List.cons_append]
      simp [startsWithChar, hc]
  have hfind : findChar '\x7b' (pre ++ '\x7b' :: X) = some pre.length := by
    rw [findChar_append_of_notMem _ _ hmem, findChar_cons_self]
    simp
  unfold trimToBrace
  rw [hstart, hfind]
  simp only [Option.isSome_some, Bool.not_false, Bool.true_and, if_true, Option.getD_some]
  exact List.drop_left pre ('\x7b' :: X)

/-- A text already ending with the closing brace passes the tail-trim
stage unchanged. -/
theorem trimAfterBrace_of_endsWith (t : List Char) (h : endsWithChar '\x7d' t = true) :
    trimAfterBrace t = t := by
  unfold trimAfterBrace
  rw [h]
  rfl

/-- The tail-trim stage cuts a nonempty brace-free suffix back to the
last closing brace. -/
theorem trimAfterBrace_of_suffix (x post : List Char) (hne : post ≠ [])
    (hmem : '\x7d' ∉ post) :
    trimAfterBrace ((x ++ ['\x7d']) ++ post) = x ++ ['\x7d'] := by
  have hends : endsWithChar '\x7d' ((x ++ ['\x7d']) ++ post) = false := by
    rw [endsWithChar, List.reverse_append]
    cases hpr : post.reverse with
    | nil => exact absurd (List.reverse_eq_nil_iff.mp hpr) hne
    | cons q r =>
      have hqmem : q ∈ post := List.mem_reverse.mp (hpr ▸ List.mem_cons_self q r)
      have hq : ¬ (q = '\x7d') := fun h => hmem (h ▸ hqmem)
      rw [List.cons_append]
      simp [startsWithChar, hq]
  have hsome : (findChar '\x7d' ((x ++ ['\x7d']) ++ post)).isSome = true :=
    findChar_isSome_of_mem _
      (List.mem_append.mpr (Or.inl (List.mem_append.mpr
        (Or.inr (List.mem_singleton.mpr rfl)))))
  have hrfind := rfindChar_append_last x post hmem
  unfold trimAfterBrace
  rw [hends, hsome, hrfind]
  simp only [Bool.not_false, Bool.true_and, if_true, Option.getD_some]
  rw [show x.length + 1 = (x ++ ['\x7d']).length by simp]
  exact List.take_left _ _

/-- Searching a nonempty pattern in itself finds it at the start. -/
theorem findSeq_self (pat : List Char) (hp : pat ≠ []) : findSeq pat pat = some 0 := by
  have h := findSeq_append_self pat [] hp
  rw [List.append_nil] at h
  exact h

/-- A fence-free top-level JSON object text passes the whole clean-up
unchanged. -/
theorem cleanResponse_bare (mid : List Char)
    (hbt : '`' ∉ '\x7b' :: (mid ++ ['\x7d'])) :
    cleanResponse ('\x7b' :: (mid ++ ['\x7d'])) = '\x7b' :: (mid ++ ['\x7d']) := by
  unfold cleanResponse
  rw [pyStrip_cons_append_last mid (by decide) (by decide),
    cutFences_of_no_backtick _ hbt,
    trimToBrace_of_startsWith _ (by rfl),
    trimAfterBrace_of_endsWith _
      (by rw [show '\x7b' :: (mid ++ ['\x7d']) = ('\x7b' :: mid) ++ ['\x7d'] from rfl]
          exact endsWithChar_append_last _ _)]

/-- The clean-up recovers the payload from its `"```json"`-fenced
encoding. -/
theorem cleanResponse_fenced (mid : List Char)
    (hbt : '`' ∉ '\x7b' :: (mid ++ ['\x7d'])) :
    cleanResponse (fenceEncode ('\x7b' :: (mid ++ ['\x7d']))) =
      '\x7b' :: (mid ++ ['\x7d']) := by
  have hshape : fenceEncode ('\x7b' :: (mid ++ ['\x7d'])) =
      '`' :: (("``json".toList ++ '\n' :: (('\x7b' :: (mid ++ ['\x7d'])) ++ ['\n', '`', '`']))
        ++ ['`']) := by
    simp [fenceEncode, fenceJsonTag, fenceTag]
  have hstrip : pyStrip (fenceEncode ('\x7b' :: (mid ++ ['\x7d']))) =
      fenceEncode ('\x7b' :: (mid ++ ['\x7d'])) := by
    rw [hshape]
    exact pyStrip_cons_append_last _ (by decide) (by decide)
  have hfind1 : findSeq fenceJsonTag (fenceEncode ('\x7b' :: (mid ++ ['\x7d']))) = some 0 :=
    findSeq_append_self fenceJsonTag _ (by decide)
  have hdrop : (fenceEncode ('\x7b' :: (mid ++ ['\x7d']))).drop (0 + 7) =
      '\n' :: (('\x7b' :: (mid ++ ['\x7d'])) ++ '\n' :: fenceTag) :=
    List.drop_left fenceJsonTag _
  have hassoc : '\n' :: (('\x7b' :: (mid ++ ['\x7d'])) ++ '\n' :: fenceTag) =
      ('\n' :: (('\x7b' :: (mid ++ ['\x7d'])) ++ ['\n'])) ++ fenceTag := by
    simp
  have hnb : '`' ∉ '\n' :: (('\x7b' :: (mid ++ ['\x7d'])) ++ ['\n']) := by
    intro hm
    rcases List.mem_cons.mp hm with h | h
    · cases h
    · rcases List.mem_append.mp h with h' | h'
      · exact hbt h'
      · exact absurd (List.mem_singleton.mp h') (by decide)
  have hfind2 : findSeq fenceTag ('\n' :: (('\x7b' :: (mid ++ ['\x7d'])) ++ '\n' :: fenceTag)) =
      some (mid.length + 4) := by
    rw [hassoc, show (fenceTag : List Char) = '`' :: "``".toList from rfl,
      findSeq_append_of_head_notMem _ _ hnb,
      findSeq_self ('`' :: "``".toList) (by decide)]
    simp only [Option.map_some', List.length_cons, List.length_append,
      List.length_singleton, List.length_nil]
    congr 1
    omega
  have htake : (('\n' :: (('\x7b' :: (mid ++ ['\x7d'])) ++ '\n' :: fenceTag)).take
      (mid.length + 4)) = '\n' :: (('\x7b' :: (mid ++ ['\x7d'])) ++ ['\n']) := by
    rw [hassoc,
      show mid.length + 4 = ('\n' :: (('\x7b' :: (mid ++ ['\x7d'])) ++ ['\n'])).length by
        simp]
    exact List.take_left _ _
  have hstrip2 : pyStrip ('\n' :: (('\x7b' :: (mid ++ ['\x7d'])) ++ ['\n'])) =
      '\x7b' :: (mid ++ ['\x7d']) := by
    rw [pyStrip, lstrip_cons_ws _ (by decide),
      show ('\x7b' :: (mid ++ ['\x7d'])) ++ ['\n'] =
        '\x7b' :: ((mid ++ ['\x7d']) ++ ['\n']) from rfl,
      lstrip_cons_not_ws _ (by decide),
      show '\x7b' :: ((mid ++ ['\x7d']) ++ ['\n']) =
        (('\x7b' :: mid) ++ ['\x7d']) ++ ['\n'] by simp,
      rstrip_append_ws _ (by decide), rstrip_append_not_ws _ (by decide)]
    simp
  unfold cleanResponse cutFences
  simp only [hstrip, hfind1, hdrop, hfind2]
  rw [if_pos (show 0 < mid.length + 4 by omega), htake, hstrip2,
    trimToBrace_of_startsWith _ (by rfl),
    trimAfterBrace_of_endsWith _
      (by rw [show '\x7b' :: (mid ++ ['\x7d']) = ('\x7b' :: mid) ++ ['\x7d'] from rfl]
          exact endsWithChar_append_last _ _)]

/-- The clean-up recovers the payload from a prose-surrounded encoding,
provided the surrounding prose contains no backtick and no brace. -/
theorem cleanResponse_prose (pre mid post : List Char)
    (hbt : '`' ∉ '\x7b' :: (mid ++ ['\x7d']))
    (hpre : '`' ∉ pre ∧ '\x7b' ∉ pre ∧ '\x7d' ∉ pre)
    (hpost : '`' ∉ post ∧ '\x7b' ∉ post ∧ '\x7d' ∉ post) :
    cleanResponse (proseEncode pre ('\x7b' :: (mid ++ ['\x7d'])) post) =
      '\x7b' :: (mid ++ ['\x7d']) := by
  have hpreSub : ∀ {c : Char}, c ∈ lstrip pre → c ∈ pre :=
    fun hm => (List.dropWhile_sublist _).subset hm
  have hpostSub : ∀ {c : Char}, c ∈ rstrip post → c ∈ post := by
    intro c hm
    rw [rstrip] at hm
    rw [← List.mem_reverse]
    exact (List.dropWhile_sublist _).subset (List.mem_reverse.mp hm)
  have h1 : pyStrip (proseEncode pre ('\x7b' :: (mid ++ ['\x7d'])) post) =
      ((lstrip pre ++ '\x7b' :: mid) ++ ['\x7d']) ++ rstrip post := by
    rw [proseEncode, pyStrip,
      show pre ++ ('\x7b' :: (mid ++ ['\x7d'])) ++ post =
        pre ++ '\x7b' :: ((mid ++ ['\x7d']) ++ post) by simp,
      lstrip_append_stop (by decide),
      show lstrip pre ++ '\x7b' :: ((mid ++ ['\x7d']) ++ post) =
        ((lstrip pre ++ '\x7b' :: mid) ++ ['\x7d']) ++ post by simp,
      rstrip_append_stop (by decide)]
  have hfence : '`' ∉ ((lstrip pre ++ '\x7b' :: mid) ++ ['\x7d']) ++ rstrip post := by
    intro hm
    rcases List.mem_append.mp hm with h | h
    · rcases List.mem_append.mp h with h' | h'
      · rcases List.mem_append.mp h' with h'' | h''
        · exact hpre.1 (hpreSub h'')
        · exact hbt (by
            rcases List.mem_cons.mp h'' with h3 | h3
            · exact List.mem_cons.mpr (Or.inl h3)
            · exact List.mem_cons.mpr (Or.inr (List.mem_append.mpr (Or.inl h3))))
      · exact absurd (List.mem_singleton.mp h') (by decide)
    · exact hpost.1 (hpostSub h)
  have h2 : trimToBrace (((lstrip pre ++ '\x7b' :: mid) ++ ['\x7d']) ++ rstrip post) =
      '\x7b' :: ((mid ++ ['\x7d']) ++ rstrip post) := by
    rw [show ((lstrip pre ++ '\x7b' :: mid) ++ ['\x7d']) ++ rstrip post =
      lstrip pre ++ '\x7b' :: ((mid ++ ['\x7d']) ++ rstrip post) by simp]
    cases hp : lstrip pre with
    | nil =>
      rw [List.nil_append]
      exact trimToBrace_of_startsWith _ (by rfl)
    | cons c p =>
      rw [← hp]
      refine trimToBrace_of_prefix _ _ (by rw [hp]; exact List.cons_ne_nil c p) ?_
      exact fun hm => hpre.2.1 (hpreSub hm)
  have h3 : trimAfterBrace ('\x7b' :: ((mid ++ ['\x7d']) ++ rstrip post)) =
      '\x7b' :: (mid ++ ['\x7d']) := by
    rw [show '\x7b' :: ((mid ++ ['\x7d']) ++ rstrip post) =
      (('\x7b' :: mid) ++ ['\x7d']) ++ rstrip post by simp]
    cases hq : rstrip post with
    | nil =>
      rw [List.append_nil]
      rw [show (('\x7b' :: mid) ++ ['\x7d'] : List Char) = '\x7b' :: (mid ++ ['\x7d'])
        by simp]
      rw [show '\x7b' :: (mid ++ ['\x7d']) = ('\x7b' :: mid) ++ ['\x7d'] from rfl]
      exact trimAfterBrace_of_endsWith _ (endsWithChar_append_last _ _)
    | cons c q =>
      rw [← hq]
      rw [trimAfterBrace_of_suffix _ _ (by rw [hq]; exact List.cons_ne_nil c q)
        (fun hm => hpost.2.2 (hpostSub hm))]
      simp
  rw [cleanResponse, h1, cutFences_of_no_backtick _ hfence, h2, h3]

/-- C5 counterexample: boundary scanning is not depth-balanced — on an
input whose tail is truncated inside a nested object, the naive
last-`\x7d` trim silently accepts the leading payload and the extractor
returns a value instead of failing. -/
theorem extractor_accepts_truncated_nested :
    extractJson ("\x7b\"a\": 1\x7d \x7b\"b\": \x7b\"c\":".toList) =
      some (Json.obj [("a", Json.num 1)]) := rfl

/-- C5 amended: for every top-level JSON object text that parses to a
payload `P` valid against the schema and contains no backtick, the
extractor returns exactly the validated payload for the
markdown-fenced, unfenced, and prose-surrounded encodings (prose free of
backticks and braces); boundary scanning is the naive first-`\x7b` /
last-`\x7d` trim, not depth-balanced matching. -/
theorem extractor_roundtrip (mid : List Char) (P : Json) {α : Type}
    (V : Json → Option α) (a : α) (pre post : List Char)
    (hbt : '`' ∉ '\x7b' :: (mid ++ ['\x7d']))
    (hparse : parseJson ('\x7b' :: (mid ++ ['\x7d'])) = some P)
    (hV : V P = some a)
    (hpre : '`' ∉ pre ∧ '\x7b' ∉ pre ∧ '\x7d' ∉ pre)
    (hpost : '`' ∉ post ∧ '\x7b' ∉ post ∧ '\x7d' ∉ post) :
    parseStructuredResponse V (fenceEncode ('\x7b' :: (mid ++ ['\x7d']))) = Except.ok a ∧
    parseStructuredResponse V ('\x7b' :: (mid ++ ['\x7d'])) = Except.ok a ∧
    parseStructuredResponse V (proseEncode pre ('\x7b' :: (mid ++ ['\x7d'])) post) =
      Except.ok a := by
  refine ⟨?_, ?_, ?_⟩
  · simp only [parseStructuredResponse, cleanResponse_fenced mid hbt, hparse, hV]
  · simp only [parseStructuredResponse, cleanResponse_bare mid hbt, hparse, hV]
  · simp only [parseStructuredResponse, cleanResponse_prose pre mid post hbt hpre hpost,
      hparse, hV]

/-- Witness for the amended C5 at a concrete schema-valid payload,
fenced, bare and surrounded by prose. -/
theorem extractor_roundtrip_witness :
    parseStructuredResponse validateCodeTemplate
        (fenceEncode ('\x7b' ::
          ("\"step_id\": \"s\", \"filename\": \"f.py\", \"code\": \"pass\"".toList ++
            ['\x7d']))) =
      Except.ok (⟨"s", "f.py", "pass", [], ""⟩ : CodeTemplate) ∧
    parseStructuredResponse validateCodeTemplate
        ('\x7b' ::
          ("\"step_id\": \"s\", \"filename\": \"f.py\", \"code\": \"pass\"".toList ++
            ['\x7d'])) =
      Except.ok (⟨"s", "f.py", "pass", [], ""⟩ : CodeTemplate) ∧
    parseStructuredResponse validateCodeTemplate
        (proseEncode "Here is the result: ".toList
          ('\x7b' ::
            ("\"step_id\": \"s\", \"filename\": \"f.py\", \"code\": \"pass\"".toList ++
              ['\x7d']))
          " Done.".toList) =
      Except.ok (⟨"s", "f.py", "pass", [], ""⟩ : CodeTemplate) :=
  extractor_roundtrip
    "\"step_id\": \"s\", \"filename\": \"f.py\", \"code\": \"pass\"".toList
    (Json.obj [("step_id", Json.str "s"), ("filename", Json.str "f.py"),
      ("code", Json.str "pass")])
    validateCodeTemplate (⟨"s", "f.py", "pass", [], ""⟩ : CodeTemplate)
    "Here is the result: ".toList " Done.".toList
    (by decide) (by rfl) (by rfl) (by decide) (by decide)

end MathPilot
